import Mathlib

/-!
Shallow embedding of the tcglog-parser event-log reader (log.go, tcgeventdata.go,
utils.go) together with a spec-derived model of the replay validator.  Byte
streams are `List Nat` (each element a byte value), machine integers are `Nat`,
Go errors are explicit error values, and the Go `panic` in `hash` is an explicit
`panicked` outcome.  The four SHA hash functions live behind a `HashModel`
parameter, since they are supplied by Go's crypto packages.
-/

namespace TCGLog

/-! Basic identifiers (AlgorithmId is a 16-bit id, PCRIndex and EventType are
32-bit values; all carried as `Nat`). -/

abbrev AlgorithmId := Nat
abbrev PCRIndex := Nat
abbrev EventType := Nat
abbrev Digest := List Nat

/-- DigestMap is Go's `map[AlgorithmId]Digest`; modelled as an association list
in insertion order (the code only inserts fresh keys, looks up, and filters). -/
abbrev DigestMap := List (AlgorithmId × Digest)

def AlgorithmSha1 : AlgorithmId := 0x0004
def AlgorithmSha256 : AlgorithmId := 0x000B
def AlgorithmSha384 : AlgorithmId := 0x000C
def AlgorithmSha512 : AlgorithmId := 0x000D

/-- Digest sizes of the supported algorithms (the `knownAlgorithms` map). -/
def knownAlgorithms (a : AlgorithmId) : Option Nat :=
  if a = AlgorithmSha1 then some 20
  else if a = AlgorithmSha256 then some 32
  else if a = AlgorithmSha384 then some 48
  else if a = AlgorithmSha512 then some 64
  else none

def isKnownAlgorithm (a : AlgorithmId) : Bool :=
  (knownAlgorithms a).isSome

/-- The `zeroDigests` table: canonical all-zero digest per known algorithm
(`nil` for an unknown key, as a Go map lookup yields the zero value). -/
def zeroDigests (a : AlgorithmId) : Digest :=
  match knownAlgorithms a with
  | some n => List.replicate n 0
  | none => []

def EventTypeNoAction : EventType := 0x03
def EventTypeSeparator : EventType := 0x04
def EventTypeAction : EventType := 0x05
def EventTypeEFIVariableDriverConfig : EventType := 0x80000001
def EventTypeEFIVariableBoot : EventType := 0x80000002
def EventTypeEFIBootServicesApplication : EventType := 0x80000003
def EventTypeEFIBootServicesDriver : EventType := 0x80000004
def EventTypeEFIRuntimeServicesDriver : EventType := 0x80000005
def EventTypeEFIGPTEvent : EventType := 0x80000006
def EventTypeEFIAction : EventType := 0x80000007
def EventTypeEFIVariableAuthority : EventType := 0x800000E0

/-- The `Spec` values distinguished by the reader. -/
inductive Spec where
  | unknown
  | pcClient
  | efi_1_2
  | efi_2
  deriving DecidableEq, Repr

/-- The four SHA functions used by `hash` in utils.go; they come from Go's
crypto packages, so they are a parameter of the embedding. -/
structure HashModel where
  sha1 : List Nat → List Nat
  sha256 : List Nat → List Nat
  sha384 : List Nat → List Nat
  sha512 : List Nat → List Nat

/-- The `hash` function of utils.go.  Its `default` branch panics, which is
modelled as `none`. -/
def hashSum (H : HashModel) (data : List Nat) (alg : AlgorithmId) : Option (List Nat) :=
  if alg = AlgorithmSha1 then some (H.sha1 data)
  else if alg = AlgorithmSha256 then some (H.sha256 data)
  else if alg = AlgorithmSha384 then some (H.sha384 data)
  else if alg = AlgorithmSha512 then some (H.sha512 data)
  else none

/-! Little-endian integer codecs.  Reading mirrors Go's `binary.Read` /
`io.ReadFull` on a `bytes.Reader`: a read that obtains no byte at all yields
`io.EOF`, a short read yields `io.ErrUnexpectedEOF`. -/

inductive ReadErr where
  | eof
  | unexpectedEOF
  deriving DecidableEq, Repr

/-- Little-endian value of a byte list. -/
def leValue : List Nat → Nat
  | [] => 0
  | b :: rest => b + 256 * leValue rest

def encU16 (n : Nat) : List Nat := [n % 256, n / 256 % 256]

def encU32 (n : Nat) : List Nat :=
  [n % 256, n / 256 % 256, n / 65536 % 256, n / 16777216 % 256]

/-- Read `n` bytes as with `binary.Read` of an `n`-byte integer. -/
def readLE (n : Nat) (l : List Nat) : Except ReadErr (Nat × List Nat) :=
  if l.isEmpty ∧ 0 < n then .error .eof
  else if l.length < n then .error .unexpectedEOF
  else .ok (leValue (l.take n), l.drop n)

def readU8 : List Nat → Except ReadErr (Nat × List Nat) := readLE 1
def readU16 : List Nat → Except ReadErr (Nat × List Nat) := readLE 2
def readU32 : List Nat → Except ReadErr (Nat × List Nat) := readLE 4

/-- Model of `io.ReadFull` for `n` bytes. -/
def readFull (n : Nat) (l : List Nat) : Except ReadErr (List Nat × List Nat) :=
  if l.isEmpty ∧ 0 < n then .error .eof
  else if l.length < n then .error .unexpectedEOF
  else .ok (l.take n, l.drop n)

/-- Model of `bytes.Reader.Read` into a fresh zeroed buffer of length `n` (as
used for the SHA-1 digest in the 1.2 reader): an empty source yields `io.EOF`;
otherwise up to `n` bytes are copied and the rest of the buffer stays zero. -/
def readUpTo (n : Nat) (l : List Nat) : Except ReadErr (List Nat × List Nat) :=
  if l.isEmpty ∧ 0 < n then .error .eof
  else .ok (l.take n ++ List.replicate (n - l.length) 0, l.drop n)

/-! Association-list operations standing in for the Go map operations on
`DigestMap`. -/

/-- Lookup in a `DigestMap` (first binding wins; the code never inserts a
duplicate key). -/
def dmLookup (m : DigestMap) (a : AlgorithmId) : Option Digest :=
  match m with
  | [] => none
  | (k, v) :: rest => if k = a then some v else dmLookup rest a

/-- Go's `digests[alg]` in value position: a missing key yields the zero value
(`nil` digest). -/
def dmLookupD (m : DigestMap) (a : AlgorithmId) : Digest :=
  (dmLookup m a).getD []

/-- The `for alg := range digests { if !isKnownAlgorithm(alg) { delete } }`
loop: removing every unknown key is order-independent, so it is a filter. -/
def dmFilterKnown (m : DigestMap) : DigestMap :=
  m.filter (fun p => isKnownAlgorithm p.1)

/-! Log errors (the distinct error values produced by log.go). -/

inductive DataErr where
  | ioError (e : ReadErr)
  | invalidSpecIdEvent
  deriving DecidableEq, Repr

inductive LogError where
  | eof
  | readError (orig : ReadErr)
  | pcrIndexOutOfRange (pcr : PCRIndex)
  | unrecognizedAlgorithm (alg : AlgorithmId)
  | duplicateDigest (alg : AlgorithmId)
  | missingDigest (alg : AlgorithmId)
  | specIdEventError
  | statusInconsistent
  deriving DecidableEq, Repr

/-- The `wrapLogReadError` helper: a clean `io.EOF` at a record boundary passes
through; any other read failure becomes a wrapped stream error. -/
def wrapLogReadError (orig : ReadErr) (truncated : Bool) : LogError :=
  match orig, truncated with
  | .eof, false => .eof
  | .eof, true => .readError .unexpectedEOF
  | .unexpectedEOF, _ => .readError .unexpectedEOF

def maxPCRIndex : PCRIndex := 31

def isPCRIndexInRange (index : PCRIndex) : Bool :=
  index ≤ maxPCRIndex

def separatorEventErrorValue : Nat := 1

/-- The four little-endian bytes of 0x00000001 written by
`binary.LittleEndian.PutUint32` in `isDigestOfSeparatorErrorValue`. -/
def separatorErrorBytes : List Nat := encU32 separatorEventErrorValue

/-- The `isDigestOfSeparatorErrorValue` check; `none` means the underlying
`hash` call panicked (unsupported algorithm). -/
def isDigestOfSeparatorErrorValue (H : HashModel) (digest : Digest)
    (alg : AlgorithmId) : Option Bool :=
  (hashSum H separatorErrorBytes alg).map (fun h => digest == h)

/-! Event data (tcgeventdata.go). -/

/-- EFISpecIdEventAlgorithmSize: one advertised (algorithm, digest length)
pair in the Spec ID event. -/
structure EFISpecIdEventAlgorithmSize where
  algorithmId : AlgorithmId
  digestSize : Nat
  deriving DecidableEq, Repr

/-- SpecIdEventData (without the raw-bytes back pointer, carried separately
where needed). -/
structure SpecIdEventData where
  spec : Spec
  platformClass : Nat
  specVersionMinor : Nat
  specVersionMajor : Nat
  specErrata : Nat
  uintnSize : Nat
  digestSizes : List EFISpecIdEventAlgorithmSize
  vendorInfo : List Nat
  deriving DecidableEq, Repr

/-- The decoded event-data union.  `specId`, `separator`, `asciiString`,
`unknownNoAction` and `broken` follow tcgeventdata.go / log.go directly.  The
EFI variable, image-load, GPT, SP800-155, startup-locality and GRUB
subdecoders are not among the provided sources; following the spec (§4.2,
§3), each such variant simply retains the raw payload bytes.  No claim
inspects their internals. -/
inductive EventData where
  | specId (d : SpecIdEventData)
  | broken (data : List Nat) (err : DataErr)
  | separator (data : List Nat) (isError : Bool)
  | asciiString (data : List Nat)
  | unknownNoAction (data : List Nat)
  | startupLocality (data : List Nat)
  | bimReference (data : List Nat)
  | efiVariable (data : List Nat)
  | efiImageLoad (data : List Nat)
  | efiGPT (data : List Nat)
  | grub (data : List Nat)
  | opaqueEventData (data : List Nat)
  deriving DecidableEq, Repr

def sigSpecIdEvent00 : List Nat :=
  [83, 112, 101, 99, 32, 73, 68, 32, 69, 118, 101, 110, 116, 48, 48, 0]
def sigSpecIdEvent02 : List Nat :=
  [83, 112, 101, 99, 32, 73, 68, 32, 69, 118, 101, 110, 116, 48, 50, 0]
def sigSpecIdEvent03 : List Nat :=
  [83, 112, 101, 99, 32, 73, 68, 32, 69, 118, 101, 110, 116, 48, 51, 0]
def sigSP800_155Event : List Nat :=
  [83, 80, 56, 48, 48, 45, 49, 53, 53, 32, 69, 118, 101, 110, 116, 0]
def sigStartupLocality : List Nat :=
  [83, 116, 97, 114, 116, 117, 112, 76, 111, 99, 97, 108, 105, 116, 121, 0]

/-- parsePCClientSpecIdEvent: 1-byte vendorInfoSize then vendorInfo. -/
def parsePCClientSpecIdEvent (l : List Nat) (d : SpecIdEventData) :
    Except DataErr SpecIdEventData :=
  match readU8 l with
  | .error _ => .error .invalidSpecIdEvent
  | .ok (vendorInfoSize, l) =>
    match readFull vendorInfoSize l with
    | .error _ => .error .invalidSpecIdEvent
    | .ok (vendorInfo, _) =>
      .ok { d with spec := .pcClient, vendorInfo := vendorInfo }

/-- Modelled from the spec: parseEFI_1_2_SpecIdEvent is not among the provided
sources; per §4.2 the EFI 1.2 Spec ID trailer is a vendorInfoSize byte plus
vendorInfo, and the event marks Spec == EFI 1.2. -/
def parseEFI_1_2_SpecIdEvent (l : List Nat) (d : SpecIdEventData) :
    Except DataErr SpecIdEventData :=
  match readU8 l with
  | .error _ => .error .invalidSpecIdEvent
  | .ok (vendorInfoSize, l) =>
    match readFull vendorInfoSize l with
    | .error _ => .error .invalidSpecIdEvent
    | .ok (vendorInfo, _) =>
      .ok { d with spec := .efi_1_2, vendorInfo := vendorInfo }

/-- Reads `n` (u16 AlgorithmId, u16 DigestSize) pairs. -/
def readAlgSizes : Nat → List Nat →
    Except DataErr (List EFISpecIdEventAlgorithmSize × List Nat)
  | 0, l => .ok ([], l)
  | n + 1, l =>
    match readU16 l with
    | .error _ => .error .invalidSpecIdEvent
    | .ok (algId, l) =>
      match readU16 l with
      | .error _ => .error .invalidSpecIdEvent
      | .ok (digestSize, l) =>
        match readAlgSizes n l with
        | .error e => .error e
        | .ok (rest, l) => .ok (⟨algId, digestSize⟩ :: rest, l)

/-- Modelled from the spec: parseEFI_2_SpecIdEvent is not among the provided
sources; per §4.2 the EFI 2 Spec ID trailer is a u32 numberOfAlgorithms, that
many (u16 AlgorithmId, u16 DigestSize) pairs populating `DigestSizes`, then a
vendorInfoSize byte plus vendorInfo, and the event marks Spec == EFI 2. -/
def parseEFI_2_SpecIdEvent (l : List Nat) (d : SpecIdEventData) :
    Except DataErr SpecIdEventData :=
  match readU32 l with
  | .error _ => .error .invalidSpecIdEvent
  | .ok (numberOfAlgorithms, l) =>
    match readAlgSizes numberOfAlgorithms l with
    | .error e => .error e
    | .ok (digestSizes, l) =>
      match readU8 l with
      | .error _ => .error .invalidSpecIdEvent
      | .ok (vendorInfoSize, l) =>
        match readFull vendorInfoSize l with
        | .error _ => .error .invalidSpecIdEvent
        | .ok (vendorInfo, _) =>
          .ok { d with spec := .efi_2, digestSizes := digestSizes,
                       vendorInfo := vendorInfo }

/-- decodeSpecIdEvent: the common 8-byte header (u32 platformClass, four u8
fields), then the per-signature helper; any read failure is an
InvalidSpecIdEvent error. -/
def decodeSpecIdEvent (l : List Nat)
    (helper : List Nat → SpecIdEventData → Except DataErr SpecIdEventData) :
    Except DataErr SpecIdEventData :=
  match readU32 l with
  | .error _ => .error .invalidSpecIdEvent
  | .ok (platformClass, l) =>
    match readU8 l with
    | .error _ => .error .invalidSpecIdEvent
    | .ok (minor, l) =>
      match readU8 l with
      | .error _ => .error .invalidSpecIdEvent
      | .ok (major, l) =>
        match readU8 l with
        | .error _ => .error .invalidSpecIdEvent
        | .ok (errata, l) =>
          match readU8 l with
          | .error _ => .error .invalidSpecIdEvent
          | .ok (uintn, l) =>
            helper l { spec := .unknown, platformClass := platformClass,
                       specVersionMinor := minor, specVersionMajor := major,
                       specErrata := errata, uintnSize := uintn,
                       digestSizes := [], vendorInfo := [] }

/-- decodeEventDataNoAction: dispatch on the 16-byte signature.  The BIM and
startup-locality decoders are not among the provided sources; they are
modelled as retaining the payload (a decode failure there cannot affect any
claim since only `specId` and `broken .invalidSpecIdEvent` are inspected
downstream). -/
def decodeEventDataNoAction (data : List Nat) :
    Option EventData × Nat × Option DataErr :=
  match readFull 16 data with
  | .error e => (none, 0, some (.ioError e))
  | .ok (signature, rest) =>
    if signature = sigSpecIdEvent00 then
      match decodeSpecIdEvent rest parsePCClientSpecIdEvent with
      | .error e => (none, 0, some e)
      | .ok d => (some (.specId d), 0, none)
    else if signature = sigSpecIdEvent02 then
      match decodeSpecIdEvent rest parseEFI_1_2_SpecIdEvent with
      | .error e => (none, 0, some e)
      | .ok d => (some (.specId d), 0, none)
    else if signature = sigSpecIdEvent03 then
      match decodeSpecIdEvent rest parseEFI_2_SpecIdEvent with
      | .error e => (none, 0, some e)
      | .ok d => (some (.specId d), 0, none)
    else if signature = sigSP800_155Event then
      (some (.bimReference data), 0, none)
    else if signature = sigStartupLocality then
      (some (.startupLocality data), 0, none)
    else
      (some (.unknownNoAction data), 0, none)

/-- decodeEventDataTCG: event-type dispatch.  The EFI variable, image-load and
GPT subdecoders are not among the provided sources and are modelled as
retaining the payload bytes (spec §4.2); no claim depends on their result
beyond it not being a Spec ID event. -/
def decodeEventDataTCG (eventType : EventType) (data : List Nat)
    (hasDigestOfSeparatorError : Bool) :
    Option EventData × Nat × Option DataErr :=
  if eventType = EventTypeNoAction then
    decodeEventDataNoAction data
  else if eventType = EventTypeSeparator then
    (some (.separator data hasDigestOfSeparatorError), 0, none)
  else if eventType = EventTypeAction ∨ eventType = EventTypeEFIAction then
    (some (.asciiString data), 0, none)
  else if eventType = EventTypeEFIVariableDriverConfig ∨
          eventType = EventTypeEFIVariableBoot ∨
          eventType = EventTypeEFIVariableAuthority then
    (some (.efiVariable data), 0, none)
  else if eventType = EventTypeEFIBootServicesApplication ∨
          eventType = EventTypeEFIBootServicesDriver ∨
          eventType = EventTypeEFIRuntimeServicesDriver then
    (some (.efiImageLoad data), 0, none)
  else if eventType = EventTypeEFIGPTEvent then
    (some (.efiGPT data), 0, none)
  else
    (none, 0, none)

structure LogOptions where
  enableGrub : Bool
  deriving DecidableEq, Repr

def grubCmdMarker : List Nat := [103, 114, 117, 98, 95, 99, 109, 100, 58, 32]
def kernelCmdlineMarker : List Nat :=
  [107, 101, 114, 110, 101, 108, 95, 99, 109, 100, 108, 105, 110, 101, 58, 32]

/-- Modelled from the spec: the `decodeEventData` wrapper called by log.go is
not among the provided sources.  Per §4.2 it dispatches GRUB string events on
PCR 8/9 when enabled, otherwise runs the TCG decoder, wrapping any subdecoder
error in a Broken variant carrying the original bytes and falling back to an
opaque variant, so that decoding never fails the stream. -/
def decodeEventData (options : LogOptions) (pcrIndex : PCRIndex)
    (eventType : EventType) (data : List Nat)
    (hasDigestOfSeparatorError : Bool) : EventData × Nat :=
  if options.enableGrub ∧ (pcrIndex = 8 ∨ pcrIndex = 9) ∧
      (grubCmdMarker.isPrefixOf data ∨ kernelCmdlineMarker.isPrefixOf data) then
    (.grub data, 0)
  else
    match decodeEventDataTCG eventType data hasDigestOfSeparatorError with
    | (_, trailing, some e) => (.broken data e, trailing)
    | (some d, trailing, none) => (d, trailing)
    | (none, trailing, none) => (.opaqueEventData data, trailing)

/-! Stream readers (log.go). -/

/-- A log event as emitted by the readers (Index is assigned by the driver). -/
structure Event where
  pcrIndex : PCRIndex
  eventType : EventType
  digests : DigestMap
  data : EventData
  index : Nat
  deriving DecidableEq, Repr

/-- Result of one `readNextEvent` call: the event with its trailing-byte count
and the remaining stream, an error, or a Go panic. -/
inductive ReadOutcome where
  | ok (e : Event) (trailing : Nat) (rest : List Nat)
  | err (e : LogError)
  | panicked
  deriving DecidableEq, Repr

/-- stream_1_2.readNextEvent. -/
def readEvent12 (H : HashModel) (options : LogOptions) (l : List Nat) :
    ReadOutcome :=
  match readU32 l with
  | .error e => .err (wrapLogReadError e false)
  | .ok (pcrIndex, l) =>
    if ¬ isPCRIndexInRange pcrIndex then .err (.pcrIndexOutOfRange pcrIndex)
    else
      match readU32 l with
      | .error e => .err (wrapLogReadError e true)
      | .ok (eventType, l) =>
        match readUpTo ((knownAlgorithms AlgorithmSha1).getD 0) l with
        | .error e => .err (wrapLogReadError e true)
        | .ok (digest, l) =>
          match readU32 l with
          | .error e => .err (wrapLogReadError e true)
          | .ok (eventSize, l) =>
            match readFull eventSize l with
            | .error e => .err (wrapLogReadError e true)
            | .ok (eventBytes, l) =>
              match isDigestOfSeparatorErrorValue H digest AlgorithmSha1 with
              | none => .panicked
              | some isErr =>
                let dt := decodeEventData options pcrIndex eventType eventBytes isErr
                .ok ⟨pcrIndex, eventType, [(AlgorithmSha1, digest)], dt.1, 0⟩
                  dt.2 l

/-- The inner loop of stream_2.readNextEvent that searches `algSizes` for the
first entry with a matching AlgorithmId. -/
def findDigestSize : List EFISpecIdEventAlgorithmSize → AlgorithmId → Option Nat
  | [], _ => none
  | a :: rest, alg =>
    if a.algorithmId = alg then some a.digestSize else findDigestSize rest alg

/-- The digest-list loop of stream_2.readNextEvent: `count` repetitions of
(u16 AlgorithmId, advertised-size digest), rejecting unrecognised algorithms
and duplicates. -/
def readDigests (algSizes : List EFISpecIdEventAlgorithmSize) :
    Nat → List Nat → DigestMap → Except LogError (DigestMap × List Nat)
  | 0, l, acc => .ok (acc, l)
  | count + 1, l, acc =>
    match readU16 l with
    | .error e => .error (wrapLogReadError e true)
    | .ok (algorithmId, l) =>
      match findDigestSize algSizes algorithmId with
      | none => .error (.unrecognizedAlgorithm algorithmId)
      | some digestSize =>
        match readFull digestSize l with
        | .error e => .error (wrapLogReadError e true)
        | .ok (digest, l) =>
          if (dmLookup acc algorithmId).isSome then
            .error (.duplicateDigest algorithmId)
          else
            readDigests algSizes count l (acc ++ [(algorithmId, digest)])

/-- The post-loop check of stream_2.readNextEvent: the first advertised
algorithm (in Spec ID order) that has no digest in the event, if any. -/
def firstMissingAlg (algSizes : List EFISpecIdEventAlgorithmSize)
    (m : DigestMap) : Option AlgorithmId :=
  match algSizes with
  | [] => none
  | a :: rest =>
    if (dmLookup m a.algorithmId).isSome then firstMissingAlg rest m
    else some a.algorithmId

/-- stream_2.readNextEvent for a non-first event (`readFirstEvent` already
true).  `algSizes` is the Spec ID event's advertised DigestSizes list.  An
empty `algSizes`, or an unsupported first advertised algorithm, makes the
separator-error pre-check panic (Go index out of range / `hash` default
branch). -/
def readEvent2 (H : HashModel) (options : LogOptions)
    (algSizes : List EFISpecIdEventAlgorithmSize) (l : List Nat) :
    ReadOutcome :=
  match readU32 l with
  | .error e => .err (wrapLogReadError e false)
  | .ok (pcrIndex, l) =>
    if ¬ isPCRIndexInRange pcrIndex then .err (.pcrIndexOutOfRange pcrIndex)
    else
      match readU32 l with
      | .error e => .err (wrapLogReadError e true)
      | .ok (eventType, l) =>
        match readU32 l with
        | .error e => .err (wrapLogReadError e true)
        | .ok (count, l) =>
          match readDigests algSizes count l [] with
          | .error e => .err e
          | .ok (digests, l) =>
            match firstMissingAlg algSizes digests with
            | some alg => .err (.missingDigest alg)
            | none =>
              let digests := dmFilterKnown digests
              match readU32 l with
              | .error e => .err (wrapLogReadError e true)
              | .ok (eventSize, l) =>
                match readFull eventSize l with
                | .error e => .err (wrapLogReadError e true)
                | .ok (eventBytes, l) =>
                  match algSizes with
                  | [] => .panicked
                  | a0 :: _ =>
                    match isDigestOfSeparatorErrorValue H
                        (dmLookupD digests a0.algorithmId) a0.algorithmId with
                    | none => .panicked
                    | some isErr =>
                      let dt := decodeEventData options pcrIndex eventType
                        eventBytes isErr
                      .ok ⟨pcrIndex, eventType, digests, dt.1, 0⟩ dt.2 l

/-- The state of the `stream` interface value held by a Log. -/
inductive StreamState where
  | s12 (options : LogOptions) (pos : List Nat)
  | s2 (options : LogOptions) (algSizes : List EFISpecIdEventAlgorithmSize)
      (readFirstEvent : Bool) (pos : List Nat)
  deriving DecidableEq, Repr

inductive StreamOutcome where
  | ok (e : Event) (trailing : Nat) (s : StreamState)
  | err (e : LogError)
  | panicked
  deriving DecidableEq, Repr

/-- Dispatch of `stream.readNextEvent` over the two reader variants.  The 2.0
reader's first call delegates to a fresh 1.2 reader constructed with
zero-value options (log.go line 126). -/
def readStream (H : HashModel) : StreamState → StreamOutcome
  | .s12 options pos =>
    match readEvent12 H options pos with
    | .ok e t rest => .ok e t (.s12 options rest)
    | .err e => .err e
    | .panicked => .panicked
  | .s2 options algSizes false pos =>
    match readEvent12 H ⟨false⟩ pos with
    | .ok e t rest => .ok e t (.s2 options algSizes true rest)
    | .err e => .err e
    | .panicked => .panicked
  | .s2 options algSizes true pos =>
    match readEvent2 H options algSizes pos with
    | .ok e t rest => .ok e t (.s2 options algSizes true rest)
    | .err e => .err e
    | .panicked => .panicked

/-! Log driver (log.go). -/

/-- The loop body of fixupSpecIdEvent: walk the advertised algorithm list,
skipping SHA-1 and algorithms already present, inserting the canonical zero
digest for the rest. -/
def backfillDigests (digests : DigestMap) : List AlgorithmId → DigestMap
  | [] => digests
  | alg :: rest =>
    if alg = AlgorithmSha1 then backfillDigests digests rest
    else if (dmLookup digests alg).isSome then backfillDigests digests rest
    else backfillDigests (digests ++ [(alg, zeroDigests alg)]) rest

/-- fixupSpecIdEvent: only Spec ID events for EFI 2 are back-filled.  The
caller guards with isSpecIdEvent, so the non-SpecId branch (a Go type
assertion that would panic) is unreachable and leaves the event unchanged. -/
def fixupSpecIdEvent (event : Event) (algorithms : List AlgorithmId) : Event :=
  match event.data with
  | .specId d =>
    if d.spec ≠ .efi_2 then event
    else { event with digests := backfillDigests event.digests algorithms }
  | _ => event

def isSpecIdEvent (event : Event) : Bool :=
  match event.data with
  | .specId _ => true
  | _ => false

/-- The Log structure: chosen spec, advertised algorithm list, stream state,
sticky-failure flag and the per-PCR index tracker. -/
structure Log where
  spec : Spec
  algorithms : List AlgorithmId
  stream : StreamState
  failed : Bool
  indexTracker : List (PCRIndex × Nat)
  deriving DecidableEq, Repr

def trackerLookup (t : List (PCRIndex × Nat)) (p : PCRIndex) : Option Nat :=
  match t with
  | [] => none
  | (k, v) :: rest => if k = p then some v else trackerLookup rest p

def trackerSet (t : List (PCRIndex × Nat)) (p : PCRIndex) (n : Nat) :
    List (PCRIndex × Nat) :=
  match t with
  | [] => [(p, n)]
  | (k, v) :: rest =>
    if k = p then (k, n) :: rest else (k, v) :: trackerSet rest p n

inductive NextOutcome where
  | ok (e : Event) (trailing : Nat)
  | err (e : LogError)
  | panicked
  deriving DecidableEq, Repr

/-- Log.nextEventInternal: refuse when failed; read one event; mark failed on
any non-EOF error; assign the per-PCR index; back-fill Spec ID events. -/
def nextEventInternal (H : HashModel) (l : Log) : NextOutcome × Log :=
  if l.failed then (.err .statusInconsistent, l)
  else
    match readStream H l.stream with
    | .panicked => (.panicked, l)
    | .err e =>
      if e ≠ .eof then (.err e, { l with failed := true }) else (.err e, l)
    | .ok event trailing st =>
      let it :=
        match trackerLookup l.indexTracker event.pcrIndex with
        | some i => (i, trackerSet l.indexTracker event.pcrIndex (i + 1))
        | none => (0, trackerSet l.indexTracker event.pcrIndex 1)
      let event := { event with index := it.1 }
      let event :=
        if isSpecIdEvent event then fixupSpecIdEvent event l.algorithms
        else event
      (.ok event trailing, { l with stream := st, indexTracker := it.2 })

inductive OpenOutcome where
  | ok (log : Log)
  | err (e : LogError)
  | panicked
  deriving DecidableEq, Repr

/-- newLogFromReader: record the offset (the model keeps the whole input
list), read one event with a 1.2 reader, pick the spec from its decoded data,
fail on an invalid Spec ID event, arm the matching reader over the original
input (the rewind) and initialise the tracker empty and the failed flag
clear. -/
def newLogFromReader (H : HashModel) (input : List Nat)
    (options : LogOptions) : OpenOutcome :=
  match readStream H (.s12 options input) with
  | .panicked => .panicked
  | .err e =>
    .err (match e with
          | .eof => .readError .unexpectedEOF
          | e => e)
  | .ok event _ _ =>
    let sd : Spec × List EFISpecIdEventAlgorithmSize × Bool :=
      match event.data with
      | .specId d => (d.spec, d.digestSizes, false)
      | .broken _ e => (Spec.unknown, [], e = .invalidSpecIdEvent)
      | _ => (Spec.unknown, [], false)
    if sd.2.2 then .err .specIdEventError
    else if sd.1 = .efi_2 then
      .ok { spec := sd.1,
            algorithms := sd.2.1.filterMap (fun a =>
              if isKnownAlgorithm a.algorithmId then some a.algorithmId
              else none),
            stream := .s2 options sd.2.1 false input,
            failed := false,
            indexTracker := [] }
    else
      .ok { spec := sd.1,
            algorithms := [AlgorithmSha1],
            stream := .s12 options input,
            failed := false,
            indexTracker := [] }

/-- Iterated NextEvent: the first `n` events a consumer obtains from a Log
(stopping at the first error, EOF or panic). -/
def runEvents (H : HashModel) : Nat → Log → List Event
  | 0, _ => []
  | n + 1, l =>
    match nextEventInternal H l with
    | (.ok e _, l2) => e :: runEvents H n l2
    | _ => []

/-! Replay validator.  The implementation (ParseAndValidateLog and its
helpers) is not among the provided source files — only its CLI caller is —
so this part is modelled from the spec (§4.5). -/

/-- Modelled from the spec: the measured-bytes derivation table of §4.5 for
the validator, which is not among the provided sources.  A separator
classified as an error measures the four bytes of 0x00000001; a normal
separator, ACTION / EFI_ACTION and GRUB events measure their payload; event
kinds whose derivation needs subdecoder internals that are also not in the
sources are mapped to `none` = "skip digest comparison but still extend". -/
def measuredBytes (e : Event) : Option (List Nat) :=
  match e.data with
  | .separator data isError =>
    some (if isError then separatorErrorBytes else data)
  | .asciiString data => some data
  | .grub data => some data
  | _ => none

structure UnexpectedDigest where
  alg : AlgorithmId
  expected : List Nat
  actual : List Nat
  deriving DecidableEq, Repr

/-- Modelled from the spec: the validator state — the expected-PCR bank keyed
by (PCRIndex, AlgorithmId) plus the recorded anomalies (§4.5). -/
structure ValidatorState where
  bank : List ((PCRIndex × AlgorithmId) × Digest)
  anomalies : List UnexpectedDigest
  deriving DecidableEq, Repr

def bankFind (bank : List ((PCRIndex × AlgorithmId) × Digest))
    (p : PCRIndex) (a : AlgorithmId) : Option Digest :=
  match bank with
  | [] => none
  | (k, v) :: rest => if k = (p, a) then some v else bankFind rest p a

/-- Current expected-PCR value for a bank entry, starting from the all-zero
digest of the algorithm's length. -/
def bankGet (bank : List ((PCRIndex × AlgorithmId) × Digest))
    (p : PCRIndex) (a : AlgorithmId) : Digest :=
  (bankFind bank p a).getD (zeroDigests a)

def bankSet (bank : List ((PCRIndex × AlgorithmId) × Digest))
    (k : PCRIndex × AlgorithmId) (v : Digest) :
    List ((PCRIndex × AlgorithmId) × Digest) :=
  match bank with
  | [] => [(k, v)]
  | (k2, v2) :: rest =>
    if k2 = k then (k2, v) :: rest else (k2, v2) :: bankSet rest k v

/-- Modelled from the spec: §4.5 steps 1-4 for one event and one algorithm —
recompute the expected digest from the measured bytes, record an anomaly on
mismatch, and extend the expected-PCR bank with the event's RECORDED digest
(never the recomputed one). -/
def processEventAlg (H : HashModel) (e : Event) (st : ValidatorState)
    (alg : AlgorithmId) : ValidatorState :=
  let recorded := dmLookupD e.digests alg
  let anomalies :=
    match measuredBytes e with
    | none => st.anomalies
    | some m =>
      match hashSum H m alg with
      | none => st.anomalies
      | some expected =>
        if expected = recorded then st.anomalies
        else st.anomalies ++ [⟨alg, expected, recorded⟩]
  let pcr := bankGet st.bank e.pcrIndex alg
  ⟨bankSet st.bank (e.pcrIndex, alg) ((hashSum H (pcr ++ recorded) alg).getD []),
   anomalies⟩

/-- Modelled from the spec: one event is examined for every selected
algorithm; events whose PCR is outside the selection are decoded but
contribute nothing (§4.5). -/
def processEvent (H : HashModel) (pcrs : List PCRIndex)
    (algs : List AlgorithmId) (st : ValidatorState) (e : Event) :
    ValidatorState :=
  if e.pcrIndex ∈ pcrs then algs.foldl (processEventAlg H e) st else st

/-- Modelled from the spec: the validator's single pass over the whole event
list (§4.5), from an empty bank. -/
def validateEvents (H : HashModel) (pcrs : List PCRIndex)
    (algs : List AlgorithmId) (events : List Event) : ValidatorState :=
  events.foldl (processEvent H pcrs algs) ⟨[], []⟩

/-- The replayed PCR bank the validator ends with for one (PCR, algorithm)
pair. -/
def replayedBank (H : HashModel) (pcrs : List PCRIndex)
    (algs : List AlgorithmId) (events : List Event) (p : PCRIndex)
    (a : AlgorithmId) : Digest :=
  bankGet (validateEvents H pcrs algs events).bank p a

/-! Concrete fixtures used by witnesses and counterexamples.  `modelHash` is
an injective toy instantiation of the hash oracle (it prefixes the data with
the algorithm id), adequate because every claim is structural in the hash
functions. -/

def modelHash : HashModel :=
  ⟨fun d => 4 :: d, fun d => 11 :: d, fun d => 12 :: d, fun d => 13 :: d⟩

def noOptions : LogOptions := ⟨false⟩

/-- Advertised DigestSizes list used by the 2.0 fixtures: SHA-256 first, then
SHA-1, both with 5-byte digests (the reader trusts the advertised length). -/
def fixtureAlgSizes : List EFISpecIdEventAlgorithmSize := [⟨11, 5⟩, ⟨4, 5⟩]

/-- A crypto-agile separator record whose SHA-256 digest (the first advertised
algorithm) does NOT match the error value, while its SHA-1 digest does. -/
def sepRecordMixed : List Nat :=
  [0, 0, 0, 0] ++ [4, 0, 0, 0] ++ [2, 0, 0, 0] ++
    ([11, 0] ++ [9, 9, 9, 9, 9]) ++ ([4, 0] ++ [4, 1, 0, 0, 0]) ++
    [4, 0, 0, 0] ++ [0, 0, 0, 0]

def sepEventMixed : Event :=
  ⟨0, 4, [(11, [9, 9, 9, 9, 9]), (4, [4, 1, 0, 0, 0])],
   .separator [0, 0, 0, 0] false, 0⟩

/-- A crypto-agile separator record whose first-advertised-algorithm digest
matches the error value. -/
def sepRecordFirst : List Nat :=
  [0, 0, 0, 0] ++ [4, 0, 0, 0] ++ [2, 0, 0, 0] ++
    ([11, 0] ++ [11, 1, 0, 0, 0]) ++ ([4, 0] ++ [7, 7, 7, 7, 7]) ++
    [4, 0, 0, 0] ++ [0, 0, 0, 0]

def sepEventFirst : Event :=
  ⟨0, 4, [(11, [11, 1, 0, 0, 0]), (4, [7, 7, 7, 7, 7])],
   .separator [0, 0, 0, 0] true, 0⟩

/-! Claim C1. -/

theorem decodeEventDataNoAction_ne_separator (data : List Nat) (d : List Nat)
    (b : Bool) : (decodeEventDataNoAction data).1 ≠ some (.separator d b) := by
  unfold decodeEventDataNoAction
  split
  · simp
  · split <;> try split <;> try split <;> try split <;> try split
    all_goals simp

theorem decodeEventDataTCG_separator (eventType : EventType)
    (data : List Nat) (isErr : Bool) (d : List Nat) (b : Bool)
    (h : (decodeEventDataTCG eventType data isErr).1 = some (.separator d b)) :
    b = isErr := by
  unfold decodeEventDataTCG at h
  split at h
  · exact absurd h (decodeEventDataNoAction_ne_separator data d b)
  · split at h
    · simp at h
      exact h.2.symm
    · split at h <;> try split at h <;> try split at h <;> try split at h
      all_goals simp at h

/-- The decoded event data is the separator variant only via the TCG separator
branch, whose stored flag is exactly the pre-computed separator-error check. -/
theorem decodeEventData_separator (options : LogOptions) (pcrIndex : PCRIndex)
    (eventType : EventType) (data : List Nat) (isErr : Bool) (d : List Nat)
    (b : Bool)
    (h : (decodeEventData options pcrIndex eventType data isErr).1 =
      .separator d b) : b = isErr := by
  unfold decodeEventData at h
  split at h
  · simp at h
  · split at h
    · simp at h
    · rename_i heq
      exact decodeEventDataTCG_separator eventType data isErr d b
        (by rw [heq]; exact congrArg some h)
    · simp at h

theorem isDigestOfSeparatorErrorValue_some (H : HashModel) (digest : Digest)
    (alg : AlgorithmId) (isErr : Bool)
    (h : isDigestOfSeparatorErrorValue H digest alg = some isErr) :
    isErr = (digest == (hashSum H separatorErrorBytes alg).getD []) := by
  unfold isDigestOfSeparatorErrorValue at h
  cases hh : hashSum H separatorErrorBytes alg with
  | none => rw [hh] at h; simp at h
  | some v => rw [hh] at h; simp at h; simp [h]

/-- Inversion of a successful non-first crypto-agile read: the advertised
list is nonempty, every advertised algorithm had a digest, the exposed map is
the unknown-filtered one, and the separator-error pre-check ran on the FIRST
advertised algorithm and fed the data decoder. -/
theorem readEvent2_ok_inv (H : HashModel) (options : LogOptions)
    (algSizes : List EFISpecIdEventAlgorithmSize) (l : List Nat) (e : Event)
    (t : Nat) (rest : List Nat)
    (h : readEvent2 H options algSizes l = .ok e t rest) :
    ∃ a0 tail m isErr,
      algSizes = a0 :: tail ∧
      firstMissingAlg algSizes m = none ∧
      e.digests = dmFilterKnown m ∧
      isDigestOfSeparatorErrorValue H (dmLookupD e.digests a0.algorithmId)
        a0.algorithmId = some isErr ∧
      ∃ eventBytes,
        e.data = (decodeEventData options e.pcrIndex e.eventType eventBytes
          isErr).1 := by
  unfold readEvent2 at h
  repeat' split at h
  all_goals try simp at h
  split at h
  case _ => exact absurd h (by simp)
  case _ isErr hsep =>
    simp only [ReadOutcome.ok.injEq] at h
    obtain ⟨he, -, -⟩ := h
    subst he
    refine ⟨_, _, _, isErr, rfl, ?_, rfl, hsep, _, rfl⟩
    assumption

/-- Inversion of a successful 1.2 read: a single SHA-1 digest, with the
separator-error pre-check on SHA-1 feeding the data decoder. -/
theorem readEvent12_ok_inv (H : HashModel) (options : LogOptions)
    (l : List Nat) (e : Event) (t : Nat) (rest : List Nat)
    (h : readEvent12 H options l = .ok e t rest) :
    ∃ digest isErr,
      e.digests = [(AlgorithmSha1, digest)] ∧
      isDigestOfSeparatorErrorValue H digest AlgorithmSha1 = some isErr ∧
      ∃ eventBytes,
        e.data = (decodeEventData options e.pcrIndex e.eventType eventBytes
          isErr).1 := by
  unfold readEvent12 at h
  repeat' split at h
  all_goals try simp at h
  obtain ⟨he, -, -⟩ := h
  subst he
  exact ⟨_, _, rfl, by assumption, _, rfl⟩

/-- Claim C1 (counterexample): a crypto-agile separator event whose digest
map contains an algorithm (SHA-1) whose digest equals hash(alg, 0x00000001)
is nevertheless NOT flagged as an error separator, because the reader checks
only the first advertised algorithm (SHA-256 here). -/
theorem separator_flag_ignores_other_present_algorithms :
    readEvent2 modelHash noOptions fixtureAlgSizes sepRecordMixed =
      .ok sepEventMixed 0 [] ∧
    sepEventMixed.eventType = EventTypeSeparator ∧
    sepEventMixed.data = .separator [0, 0, 0, 0] false ∧
    dmLookup sepEventMixed.digests AlgorithmSha1 =
      some ((hashSum modelHash separatorErrorBytes AlgorithmSha1).getD []) :=
  ⟨by decide, rfl, rfl, by decide⟩

/-- Claim C1 (amended): a SEPARATOR event is flagged as an error separator
iff its recorded digest for the FIRST advertised algorithm (2.0 reader) —
respectively for SHA-1 (1.2 reader) — equals hash(that algorithm, the 4
little-endian bytes of 0x00000001); when flagged, the measured bytes used for
replay verification are those four bytes rather than the event data. -/
theorem separator_error_flag_first_algorithm :
    (∀ (H : HashModel) (options : LogOptions)
       (a0 : EFISpecIdEventAlgorithmSize)
       (rest0 : List EFISpecIdEventAlgorithmSize) (l : List Nat) (e : Event)
       (t : Nat) (rest : List Nat) (d : List Nat) (b : Bool),
       readEvent2 H options (a0 :: rest0) l = .ok e t rest →
       e.data = .separator d b →
       b = (dmLookupD e.digests a0.algorithmId ==
            (hashSum H separatorErrorBytes a0.algorithmId).getD [])) ∧
    (∀ (H : HashModel) (options : LogOptions) (l : List Nat) (e : Event)
       (t : Nat) (rest : List Nat) (d : List Nat) (b : Bool),
       readEvent12 H options l = .ok e t rest →
       e.data = .separator d b →
       b = (dmLookupD e.digests AlgorithmSha1 ==
            H.sha1 separatorErrorBytes)) ∧
    (∀ (e : Event) (d : List Nat), e.data = .separator d true →
       measuredBytes e = some separatorErrorBytes) := by
  refine ⟨?_, ?_, ?_⟩
  · intro H options a0 rest0 l e t rest d b hread hdata
    obtain ⟨a0', tail, m, isErr, heq, -, -, hsep, bytes, hdecode⟩ :=
      readEvent2_ok_inv H options (a0 :: rest0) l e t rest hread
    obtain ⟨rfl, rfl⟩ : a0 = a0' ∧ rest0 = tail := by
      injection heq with h1 h2; exact ⟨h1, h2⟩
    have hb : b = isErr :=
      decodeEventData_separator options e.pcrIndex e.eventType bytes isErr d b
        (hdecode ▸ hdata)
    rw [hb]
    exact isDigestOfSeparatorErrorValue_some H _ _ isErr hsep
  · intro H options l e t rest d b hread hdata
    obtain ⟨digest, isErr, hdig, hsep, bytes, hdecode⟩ :=
      readEvent12_ok_inv H options l e t rest hread
    have hb : b = isErr :=
      decodeEventData_separator options e.pcrIndex e.eventType bytes isErr d b
        (hdecode ▸ hdata)
    rw [hb, isDigestOfSeparatorErrorValue_some H digest AlgorithmSha1 isErr hsep]
    simp [hdig, dmLookupD, dmLookup, hashSum, AlgorithmSha1]
  · intro e d h
    simp [measuredBytes, h]

/-- Claim C1 (witness for the amended claim): a separator record whose
first-advertised-algorithm digest matches the error value is flagged, and its
measured bytes are 0x01 0x00 0x00 0x00. -/
theorem separator_error_flag_first_algorithm_witness :
    (true = (dmLookupD sepEventFirst.digests (11 : Nat) ==
      (hashSum modelHash separatorErrorBytes 11).getD [])) ∧
    measuredBytes sepEventFirst = some separatorErrorBytes :=
  ⟨separator_error_flag_first_algorithm.1 modelHash noOptions ⟨11, 5⟩
      [⟨4, 5⟩] sepRecordFirst sepEventFirst 0 [] [0, 0, 0, 0] true
      (by decide) rfl,
   separator_error_flag_first_algorithm.2.2 sepEventFirst [0, 0, 0, 0] rfl⟩

/-! Claim C9. -/

theorem hashSum_isSome (H : HashModel) (d : List Nat) (a : AlgorithmId)
    (h : isKnownAlgorithm a = true) : (hashSum H d a).isSome := by
  unfold isKnownAlgorithm knownAlgorithms at h
  unfold hashSum
  split_ifs at h ⊢ <;> simp_all

theorem hashSum_eq_none (H : HashModel) (d : List Nat) (a : AlgorithmId)
    (h : isKnownAlgorithm a = false) : hashSum H d a = none := by
  unfold isKnownAlgorithm knownAlgorithms at h
  unfold hashSum
  split_ifs at h ⊢ <;> simp_all

/-- The advertised DigestSizes list and one syntactically valid record that
drive the 2.0 reader into the `hash` panic branch: the only advertised
algorithm (id 0x10) is unsupported. -/
def panicAlgSizes : List EFISpecIdEventAlgorithmSize := [⟨16, 0⟩]

def panicRecord : List Nat :=
  [0, 0, 0, 0] ++ [0, 0, 0, 0] ++ [1, 0, 0, 0] ++ [16, 0] ++ [0, 0, 0, 0]

theorem isDigestOfSeparatorErrorValue_none (H : HashModel) (digest : Digest)
    (alg : AlgorithmId)
    (h : isDigestOfSeparatorErrorValue H digest alg = none) :
    hashSum H separatorErrorBytes alg = none := by
  unfold isDigestOfSeparatorErrorValue at h
  cases hh : hashSum H separatorErrorBytes alg with
  | none => rfl
  | some v => rw [hh] at h; simp at h

/-- Inversion of a panicking non-first crypto-agile read: the Go code panics
only on an empty advertised list (index out of range) or an unsupported first
advertised algorithm (the `hash` default branch). -/
theorem readEvent2_panicked_inv (H : HashModel) (options : LogOptions)
    (algSizes : List EFISpecIdEventAlgorithmSize) (l : List Nat)
    (h : readEvent2 H options algSizes l = .panicked) :
    algSizes = [] ∨
    ∃ a0 tail, algSizes = a0 :: tail ∧
      hashSum H separatorErrorBytes a0.algorithmId = none := by
  unfold readEvent2 at h
  repeat' split at h
  all_goals try simp at h
  case _ => exact Or.inl rfl
  case _ =>
    split at h
    case _ hnone =>
      exact Or.inr ⟨_, _, rfl, isDigestOfSeparatorErrorValue_none H _ _ hnone⟩
    case _ => simp at h

/-- Claim C9: the separator-error pre-check runs for every non-first 2.0
event with the first advertised algorithm; a non-first read never panics when
that algorithm is supported, never succeeds when it is not, and a concrete
syntactically valid record under an unsupported first advertised algorithm
reaches the panic branch. -/
theorem readEvent2_total_iff_first_alg_supported :
    (∀ (H : HashModel) (options : LogOptions)
       (a0 : EFISpecIdEventAlgorithmSize)
       (tail : List EFISpecIdEventAlgorithmSize) (l : List Nat),
       isKnownAlgorithm a0.algorithmId = true →
       readEvent2 H options (a0 :: tail) l ≠ .panicked) ∧
    (∀ (H : HashModel) (options : LogOptions)
       (a0 : EFISpecIdEventAlgorithmSize)
       (tail : List EFISpecIdEventAlgorithmSize) (l : List Nat),
       isKnownAlgorithm a0.algorithmId = false →
       ∀ e t rest, readEvent2 H options (a0 :: tail) l ≠ .ok e t rest) ∧
    (∀ (H : HashModel) (options : LogOptions),
       readEvent2 H options panicAlgSizes panicRecord = .panicked) := by
  refine ⟨?_, ?_, fun H options => rfl⟩
  · intro H options a0 tail l hknown hpan
    rcases readEvent2_panicked_inv H options (a0 :: tail) l hpan with
      hnil | ⟨a0', tail', heq, hnone⟩
    · simp at hnil
    · obtain ⟨rfl, rfl⟩ : a0 = a0' ∧ tail = tail' := by
        injection heq with h1 h2; exact ⟨h1, h2⟩
      have hs := hashSum_isSome H separatorErrorBytes a0.algorithmId hknown
      rw [hnone] at hs
      simp at hs
  · intro H options a0 tail l hunk e t rest hok
    obtain ⟨a0', tail', m, isErr, heq, -, -, hsep, -, -⟩ :=
      readEvent2_ok_inv H options (a0 :: tail) l e t rest hok
    obtain ⟨rfl, rfl⟩ : a0 = a0' ∧ tail = tail' := by
      injection heq with h1 h2; exact ⟨h1, h2⟩
    rw [isDigestOfSeparatorErrorValue,
      hashSum_eq_none H separatorErrorBytes a0.algorithmId hunk] at hsep
    simp at hsep

/-- Claim C9 (witness): a supported first advertised algorithm never panics
on any input; an unsupported one never succeeds; the concrete panic input. -/
theorem readEvent2_total_iff_first_alg_supported_witness :
    readEvent2 modelHash noOptions [⟨AlgorithmSha1, 20⟩] [] ≠ .panicked ∧
    readEvent2 modelHash noOptions [⟨16, 0⟩] panicRecord ≠
      .ok sepEventMixed 0 [] ∧
    readEvent2 modelHash noOptions panicAlgSizes panicRecord = .panicked :=
  ⟨readEvent2_total_iff_first_alg_supported.1 modelHash noOptions
      ⟨AlgorithmSha1, 20⟩ [] [] (by decide),
   readEvent2_total_iff_first_alg_supported.2.1 modelHash noOptions
      ⟨16, 0⟩ [] panicRecord (by decide) sepEventMixed 0 [],
   readEvent2_total_iff_first_alg_supported.2.2 modelHash noOptions⟩

/-! Claims C6 and C10. -/

/-- A log over a 1-byte source: the first u32 read is a short read, giving a
non-EOF wrapped stream error. -/
def stickyLog : Log := ⟨.unknown, [AlgorithmSha1], .s12 noOptions [1], false, []⟩

/-- A log over an exhausted source: the first u32 read reports clean EOF. -/
def emptyStreamLog : Log :=
  ⟨.unknown, [AlgorithmSha1], .s12 noOptions [], false, []⟩

theorem nextEventInternal_failed (H : HashModel) (l : Log)
    (hf : l.failed = true) :
    nextEventInternal H l = (.err .statusInconsistent, l) := by
  unfold nextEventInternal
  rw [hf]
  simp

/-- Claim C6: a failed-flagged log refuses reads without touching the source,
and any non-EOF error sets the flag, after which every further read returns
the sticky error on the unchanged log. -/
theorem sticky_failure :
    (∀ (H : HashModel) (l : Log), l.failed = true →
       nextEventInternal H l = (.err .statusInconsistent, l)) ∧
    (∀ (H : HashModel) (l l2 : Log) (e : LogError),
       l.failed = false →
       nextEventInternal H l = (.err e, l2) → e ≠ .eof →
       l2 = { l with failed := true } ∧
       nextEventInternal H l2 = (.err .statusInconsistent, l2)) := by
  constructor
  · exact nextEventInternal_failed
  · intro H l l2 e hf h hne
    unfold nextEventInternal at h
    rw [hf] at h
    simp only [Bool.false_eq_true, if_false] at h
    split at h
    · simp at h
    · split at h
      · simp only [Prod.mk.injEq, NextOutcome.err.injEq] at h
        obtain ⟨-, rfl⟩ := h
        exact ⟨rfl, nextEventInternal_failed H _ rfl⟩
      · rename_i hee
        simp only [ne_eq, Decidable.not_not] at hee
        simp only [Prod.mk.injEq, NextOutcome.err.injEq] at h
        exact absurd (h.1.symm.trans hee) hne
    · simp at h

/-- Claim C6 (witness): a 1-byte source yields a non-EOF stream error, the
returned log is flag-set, and further reads return the sticky error. -/
theorem sticky_failure_witness :
    ({ stickyLog with failed := true } = { stickyLog with failed := true } ∧
     nextEventInternal modelHash { stickyLog with failed := true } =
       (.err .statusInconsistent, { stickyLog with failed := true })) ∧
    nextEventInternal modelHash { stickyLog with failed := true } =
      (.err .statusInconsistent, { stickyLog with failed := true }) :=
  ⟨sticky_failure.2 modelHash stickyLog { stickyLog with failed := true }
     (.readError .unexpectedEOF) rfl (by decide) (by decide),
   sticky_failure.1 modelHash { stickyLog with failed := true } rfl⟩

/-- Claim C10: a clean end-of-stream leaves the log unchanged — in particular
the failed flag stays clear — and the next call re-reads the source and
reports end-of-stream again. -/
theorem clean_eof_not_sticky (H : HashModel) (l l2 : Log)
    (hf : l.failed = false)
    (h : nextEventInternal H l = (.err .eof, l2)) :
    l2 = l ∧ l2.failed = false ∧
    nextEventInternal H l2 = (.err .eof, l2) := by
  unfold nextEventInternal at h
  rw [hf] at h
  simp only [Bool.false_eq_true, if_false] at h
  split at h
  · simp at h
  · rename_i heq
    split at h
    · rename_i hne
      simp only [Prod.mk.injEq, NextOutcome.err.injEq] at h
      exact absurd h.1 hne
    · rename_i hee
      simp only [ne_eq, Decidable.not_not] at hee
      simp only [Prod.mk.injEq] at h
      obtain ⟨-, rfl⟩ := h
      subst hee
      refine ⟨rfl, hf, ?_⟩
      unfold nextEventInternal
      rw [hf]
      simp [heq]
  · simp at h

/-- Claim C10 (witness): an empty source reports EOF, stays unfailed and
reports EOF again on the next call. -/
theorem clean_eof_not_sticky_witness :
    emptyStreamLog = emptyStreamLog ∧ emptyStreamLog.failed = false ∧
    nextEventInternal modelHash emptyStreamLog = (.err .eof, emptyStreamLog) :=
  clean_eof_not_sticky modelHash emptyStreamLog emptyStreamLog rfl (by decide)

/-! Claim C8. -/

def trackerCount (t : List (PCRIndex × Nat)) (p : PCRIndex) : Nat :=
  (trackerLookup t p).getD 0

theorem trackerLookup_set_self (t : List (PCRIndex × Nat)) (p : PCRIndex)
    (n : Nat) : trackerLookup (trackerSet t p n) p = some n := by
  induction t with
  | nil => simp [trackerSet, trackerLookup]
  | cons kv rest ih =>
    obtain ⟨k, v⟩ := kv
    by_cases hk : k = p <;> simp [trackerSet, trackerLookup, hk, ih]

theorem trackerLookup_set_other (t : List (PCRIndex × Nat)) (p q : PCRIndex)
    (n : Nat) (h : q ≠ p) :
    trackerLookup (trackerSet t p n) q = trackerLookup t q := by
  induction t with
  | nil =>
    simp only [trackerSet, trackerLookup]
    rw [if_neg (Ne.symm h)]
  | cons kv rest ih =>
    obtain ⟨k, v⟩ := kv
    simp only [trackerSet]
    by_cases hk : k = p
    · rw [if_pos hk]
      subst hk
      simp only [trackerLookup]
      rw [if_neg (Ne.symm h), if_neg (Ne.symm h)]
    · rw [if_neg hk]
      simp only [trackerLookup]
      by_cases hq : k = q
      · rw [if_pos hq, if_pos hq]
      · rw [if_neg hq, if_neg hq, ih]

theorem fixupSpecIdEvent_pcrIndex (e : Event) (algs : List AlgorithmId) :
    (fixupSpecIdEvent e algs).pcrIndex = e.pcrIndex := by
  unfold fixupSpecIdEvent
  split <;> first | rfl | (split <;> rfl)

theorem fixupSpecIdEvent_index (e : Event) (algs : List AlgorithmId) :
    (fixupSpecIdEvent e algs).index = e.index := by
  unfold fixupSpecIdEvent
  split <;> first | rfl | (split <;> rfl)

theorem nextEventInternal_ok_inv (H : HashModel) (l : Log) (e : Event)
    (t : Nat) (l2 : Log)
    (h : nextEventInternal H l = (.ok e t, l2)) :
    e.index = trackerCount l.indexTracker e.pcrIndex ∧
    l2.indexTracker = trackerSet l.indexTracker e.pcrIndex
      (trackerCount l.indexTracker e.pcrIndex + 1) := by
  unfold nextEventInternal at h
  split at h
  · simp at h
  · split at h
    · simp at h
    · split at h <;> simp at h
    · rename_i event trailing st heq
      cases htr : trackerLookup l.indexTracker event.pcrIndex with
      | none =>
        rw [htr] at h
        simp only [Prod.mk.injEq, NextOutcome.ok.injEq] at h
        obtain ⟨⟨he, -⟩, hl2⟩ := h
        subst hl2
        have hpcr : e.pcrIndex = event.pcrIndex := by
          rw [← he]
          split
          · rw [fixupSpecIdEvent_pcrIndex]
          · rfl
        have hidx : e.index = 0 := by
          rw [← he]
          split
          · rw [fixupSpecIdEvent_index]
          · rfl
        constructor
        · rw [hidx, hpcr, trackerCount, htr]
          rfl
        · rw [hpcr, trackerCount, htr]
          rfl
      | some i =>
        rw [htr] at h
        simp only [Prod.mk.injEq, NextOutcome.ok.injEq] at h
        obtain ⟨⟨he, -⟩, hl2⟩ := h
        subst hl2
        have hpcr : e.pcrIndex = event.pcrIndex := by
          rw [← he]
          split
          · rw [fixupSpecIdEvent_pcrIndex]
          · rfl
        have hidx : e.index = i := by
          rw [← he]
          split
          · rw [fixupSpecIdEvent_index]
          · rfl
        constructor
        · rw [hidx, hpcr, trackerCount, htr]
          rfl
        · rw [hpcr, trackerCount, htr]
          rfl

theorem runEvents_filter_indices (H : HashModel) (n : Nat) :
    ∀ (l : Log) (p : PCRIndex),
      ((runEvents H n l).filter (fun e => e.pcrIndex = p)).map Event.index =
        List.range' (trackerCount l.indexTracker p)
          (((runEvents H n l).filter (fun e => e.pcrIndex = p)).length) := by
  induction n with
  | zero => intro l p; simp [runEvents]
  | succ n ih =>
    intro l p
    rw [runEvents]
    cases hne : nextEventInternal H l with
    | mk out l2 =>
      cases out with
      | ok e t =>
        obtain ⟨hidx, htr⟩ := nextEventInternal_ok_inv H l e t l2 hne
        by_cases hp : e.pcrIndex = p
        · subst hp
          simp only [List.filter_cons, decide_True]
          rw [if_pos trivial, List.map_cons, List.length_cons,
            List.range'_succ]
          have h2 := ih l2 e.pcrIndex
          rw [htr, trackerCount, trackerLookup_set_self] at h2
          simp only [Option.getD_some] at h2
          rw [h2, hidx]
        · simp only [List.filter_cons]
          rw [if_neg (by simp [hp])]
          have h2 := ih l2 p
          rw [htr, trackerCount, trackerLookup_set_other _ _ _ _
            (fun hh => hp hh.symm)] at h2
          exact h2
      | err e2 => simp
      | panicked => simp

/-- Claim C8: for every log (fresh per-PCR tracker) and every PCR p, the
Index fields of the events with PCRIndex = p, in emission order, are exactly
0, 1, 2, ... without gaps. -/
theorem per_pcr_indices_sequential (H : HashModel) (l : Log)
    (hl : l.indexTracker = []) (n : Nat) (p : PCRIndex) :
    ((runEvents H n l).filter (fun e => e.pcrIndex = p)).map Event.index =
      List.range
        (((runEvents H n l).filter (fun e => e.pcrIndex = p)).length) := by
  have h := runEvents_filter_indices H n l p
  rw [hl] at h
  rw [List.range_eq_range']
  simpa [trackerCount, trackerLookup] using h

def indexRecord (p : Nat) : List Nat :=
  encU32 p ++ [5, 0, 0, 0] ++ List.replicate 20 9 ++ [1, 0, 0, 0] ++ [65]

def indexLog : Log :=
  ⟨.unknown, [AlgorithmSha1],
   .s12 noOptions (indexRecord 0 ++ indexRecord 1 ++ indexRecord 0), false, []⟩

/-- Claim C8 (witness): a three-record log measuring PCRs 0, 1, 0 yields
indices 0, 1 for PCR 0. -/
theorem per_pcr_indices_sequential_witness :
    ((runEvents modelHash 3 indexLog).filter
      (fun e => e.pcrIndex = 0)).map Event.index = [0, 1] := by
  have h := per_pcr_indices_sequential modelHash indexLog rfl 3 0
  exact h.trans (by decide)

/-! Claim C4. -/

theorem firstMissingAlg_none_iff (algSizes : List EFISpecIdEventAlgorithmSize)
    (m : DigestMap) :
    firstMissingAlg algSizes m = none ↔
      ∀ a ∈ algSizes, (dmLookup m a.algorithmId).isSome := by
  induction algSizes with
  | nil => simp [firstMissingAlg]
  | cons a rest ih =>
    by_cases h : (dmLookup m a.algorithmId).isSome <;>
      simp [firstMissingAlg, h, ih]

theorem dmLookup_filterKnown (m : DigestMap) (a : AlgorithmId) :
    dmLookup (dmFilterKnown m) a =
      if isKnownAlgorithm a = true then dmLookup m a else none := by
  induction m with
  | nil => simp [dmFilterKnown, dmLookup]
  | cons kv rest ih =>
    obtain ⟨k, v⟩ := kv
    by_cases hk : k = a
    · subst hk
      by_cases hkn : isKnownAlgorithm k = true <;>
        simp [dmFilterKnown, dmLookup, hkn, ih] at ih ⊢ <;> simp [hkn, ih]
    · by_cases hkn : isKnownAlgorithm k = true <;>
        simp [dmFilterKnown, dmLookup, hkn, hk] <;>
        simpa [dmFilterKnown] using ih

/-- Claim C4: the digest map of a successfully returned non-first 2.0 event
contains every advertised supported algorithm and no unsupported key; digests
for advertised-but-unsupported algorithms are consumed but removed. -/
theorem digest_map_keys_known (H : HashModel) (options : LogOptions)
    (algSizes : List EFISpecIdEventAlgorithmSize) (l : List Nat) (e : Event)
    (t : Nat) (rest : List Nat)
    (h : readEvent2 H options algSizes l = .ok e t rest) :
    (∀ a ∈ algSizes, isKnownAlgorithm a.algorithmId = true →
       (dmLookup e.digests a.algorithmId).isSome) ∧
    (∀ alg, (dmLookup e.digests alg).isSome → isKnownAlgorithm alg = true) := by
  obtain ⟨a0, tail, m, isErr, -, hmiss, hdig, -, -⟩ :=
    readEvent2_ok_inv H options algSizes l e t rest h
  constructor
  · intro a ha hk
    have hin := (firstMissingAlg_none_iff algSizes m).mp hmiss a ha
    rw [hdig, dmLookup_filterKnown, if_pos hk]
    exact hin
  · intro alg hsome
    rw [hdig, dmLookup_filterKnown] at hsome
    by_cases hk : isKnownAlgorithm alg = true
    · exact hk
    · rw [if_neg hk] at hsome
      simp at hsome

/-- Claim C4 (witness): in the mixed fixture record both advertised
algorithms are supported and present; key 4 (SHA-1) is present and key 11
(SHA-256) is known because it is a key. -/
theorem digest_map_keys_known_witness :
    (dmLookup sepEventMixed.digests 4).isSome ∧
    isKnownAlgorithm 11 = true :=
  ⟨(digest_map_keys_known modelHash noOptions fixtureAlgSizes sepRecordMixed
      sepEventMixed 0 [] (by decide)).1 ⟨4, 5⟩ (by decide) (by decide),
   (digest_map_keys_known modelHash noOptions fixtureAlgSizes sepRecordMixed
      sepEventMixed 0 [] (by decide)).2 11 (by decide)⟩

/-! Claim C3. -/

/-- Byte encoding of a TCG_PCR_EVENT2 digest-list: per entry a u16
AlgorithmId followed by the digest bytes. -/
def encodeDigestEntries : List (AlgorithmId × Digest) → List Nat
  | [] => []
  | (a, d) :: rest => encU16 a ++ d ++ encodeDigestEntries rest

/-- Byte encoding of a TCG_PCR_EVENT2 header: u32 PCRIndex, u32 EventType,
u32 digest count, then the body. -/
def encodeRecord2 (pcr eventType count : Nat) (body : List Nat) : List Nat :=
  encU32 pcr ++ encU32 eventType ++ encU32 count ++ body

theorem readU16_enc (n : Nat) (hn : n < 65536) (rest : List Nat) :
    readU16 (encU16 n ++ rest) = .ok (n, rest) := by
  simp [readU16, readLE, encU16, leValue]
  rw [if_neg (by omega)]
  have h2 : n % 256 + 256 * (n / 256 % 256) = n := by omega
  rw [h2]

theorem readU32_enc (n : Nat) (hn : n < 4294967296) (rest : List Nat) :
    readU32 (encU32 n ++ rest) = .ok (n, rest) := by
  simp [readU32, readLE, encU32, leValue]
  rw [if_neg (by omega)]
  have h2 : n % 256 + 256 * (n / 256 % 256 + 256 *
      (n / 65536 % 256 + 256 * (n / 16777216 % 256))) = n := by omega
  rw [h2]

theorem readFull_exact (d rest : List Nat) :
    readFull d.length (d ++ rest) = .ok (d, rest) := by
  unfold readFull
  rw [if_neg, if_neg]
  · rw [List.take_left, List.drop_left]
  · simp
  · rintro ⟨h1, h2⟩
    cases d <;> simp_all

theorem dmLookup_append_single (acc : DigestMap) (a : AlgorithmId)
    (d : Digest) (x : AlgorithmId) :
    dmLookup (acc ++ [(a, d)]) x =
      match dmLookup acc x with
      | some v => some v
      | none => if a = x then some d else none := by
  induction acc with
  | nil => simp [dmLookup]
  | cons kv rest ih =>
    obtain ⟨k, v⟩ := kv
    by_cases hk : k = x <;> simp [dmLookup, hk, ih]

theorem readDigests_encoded_ok (sizes : List EFISpecIdEventAlgorithmSize)
    (entries : List (AlgorithmId × Digest)) :
    ∀ (acc : DigestMap) (rest : List Nat),
      (∀ p ∈ entries, p.1 < 65536 ∧
        findDigestSize sizes p.1 = some p.2.length) →
      (entries.map Prod.fst).Nodup →
      (∀ p ∈ entries, dmLookup acc p.1 = none) →
      readDigests sizes entries.length
        (encodeDigestEntries entries ++ rest) acc = .ok (acc ++ entries, rest) := by
  induction entries with
  | nil => intro acc rest _ _ _; simp [encodeDigestEntries, readDigests]
  | cons hd tl ih =>
    obtain ⟨a, d⟩ := hd
    intro acc rest hgood hnodup hfresh
    obtain ⟨ha16, hsize⟩ := hgood (a, d) (by simp)
    show readDigests sizes (tl.length + 1)
      (encodeDigestEntries ((a, d) :: tl) ++ rest) acc = _
    rw [show encodeDigestEntries ((a, d) :: tl) ++ rest =
      encU16 a ++ (d ++ (encodeDigestEntries tl ++ rest)) from by
        simp [encodeDigestEntries]]
    have hsize2 : findDigestSize sizes a = some d.length := hsize
    have hfr : dmLookup acc a = none := hfresh (a, d) (by simp)
    unfold readDigests
    rw [readU16_enc a ha16]
    dsimp only
    rw [hsize2]
    dsimp only
    rw [readFull_exact d]
    rw [hfr]
    rw [List.map_cons] at hnodup
    have hcons := List.nodup_cons.mp hnodup
    simp only [Option.isSome_none, Bool.false_eq_true, if_false]
    rw [ih (acc ++ [(a, d)]) rest
      (fun p hp => hgood p (List.mem_cons_of_mem _ hp))
      hcons.2
      (fun p hp => by
        have hmem : p.1 ∈ List.map Prod.fst tl :=
          List.mem_map_of_mem Prod.fst hp
        rw [dmLookup_append_single, hfresh p (List.mem_cons_of_mem _ hp)]
        dsimp only
        rw [if_neg (fun (he : a = p.1) => hcons.1 (by rw [he]; exact hmem))])]
    simp

theorem readDigests_encoded_unrecognized
    (sizes : List EFISpecIdEventAlgorithmSize)
    (entries : List (AlgorithmId × Digest)) :
    ∀ (acc : DigestMap) (k : Nat) (a : AlgorithmId) (junk : List Nat),
      (∀ p ∈ entries, p.1 < 65536 ∧
        findDigestSize sizes p.1 = some p.2.length) →
      (entries.map Prod.fst).Nodup →
      (∀ p ∈ entries, dmLookup acc p.1 = none) →
      a < 65536 →
      findDigestSize sizes a = none →
      readDigests sizes (entries.length + k + 1)
        (encodeDigestEntries entries ++ (encU16 a ++ junk)) acc =
        .error (.unrecognizedAlgorithm a) := by
  induction entries with
  | nil =>
    intro acc k a junk _ _ _ ha16 hbad
    rw [show encodeDigestEntries [] ++ (encU16 a ++ junk) =
      encU16 a ++ junk from by simp [encodeDigestEntries]]
    rw [show ([] : List (AlgorithmId × Digest)).length + k + 1 = k + 1 from by
      simp]
    unfold readDigests
    rw [readU16_enc a ha16]
    dsimp only
    rw [hbad]
  | cons hd tl ih =>
    obtain ⟨b, d⟩ := hd
    intro acc k a junk hgood hnodup hfresh ha16 hbad
    obtain ⟨hb16, hsize⟩ := hgood (b, d) (by simp)
    have hsize2 : findDigestSize sizes b = some d.length := hsize
    have hfr : dmLookup acc b = none := hfresh (b, d) (by simp)
    rw [List.map_cons] at hnodup
    have hcons := List.nodup_cons.mp hnodup
    rw [show ((b, d) :: tl).length + k + 1 = (tl.length + k + 1) + 1 from by
      simp [List.length_cons]; omega]
    rw [show encodeDigestEntries ((b, d) :: tl) ++ (encU16 a ++ junk) =
      encU16 b ++ (d ++ (encodeDigestEntries tl ++ (encU16 a ++ junk))) from by
        simp [encodeDigestEntries]]
    unfold readDigests
    rw [readU16_enc b hb16]
    dsimp only
    rw [hsize2]
    dsimp only
    rw [readFull_exact d]
    rw [hfr]
    simp only [Option.isSome_none, Bool.false_eq_true, if_false]
    exact ih (acc ++ [(b, d)]) k a junk
      (fun p hp => hgood p (List.mem_cons_of_mem _ hp))
      hcons.2
      (fun p hp => by
        have hmem : p.1 ∈ List.map Prod.fst tl :=
          List.mem_map_of_mem Prod.fst hp
        rw [dmLookup_append_single, hfresh p (List.mem_cons_of_mem _ hp)]
        dsimp only
        rw [if_neg (fun (he : b = p.1) => hcons.1 (by rw [he]; exact hmem))])
      ha16 hbad

theorem readDigests_encoded_duplicate
    (sizes : List EFISpecIdEventAlgorithmSize)
    (entries : List (AlgorithmId × Digest)) :
    ∀ (acc : DigestMap) (k : Nat) (a : AlgorithmId) (d : Digest)
      (junk : List Nat),
      (∀ p ∈ entries, p.1 < 65536 ∧
        findDigestSize sizes p.1 = some p.2.length) →
      (entries.map Prod.fst).Nodup →
      (∀ p ∈ entries, dmLookup acc p.1 = none) →
      a < 65536 →
      findDigestSize sizes a = some d.length →
      (dmLookup (acc ++ entries) a).isSome = true →
      readDigests sizes (entries.length + k + 1)
        (encodeDigestEntries entries ++ (encU16 a ++ (d ++ junk))) acc =
        .error (.duplicateDigest a) := by
  induction entries with
  | nil =>
    intro acc k a d junk _ _ _ ha16 hsa hdup
    rw [List.append_nil] at hdup
    rw [show encodeDigestEntries [] ++ (encU16 a ++ (d ++ junk)) =
      encU16 a ++ (d ++ junk) from by simp [encodeDigestEntries]]
    rw [show ([] : List (AlgorithmId × Digest)).length + k + 1 = k + 1 from by
      simp]
    unfold readDigests
    rw [readU16_enc a ha16]
    dsimp only
    rw [hsa]
    dsimp only
    rw [readFull_exact d]
    rw [hdup]
    simp
  | cons hd tl ih =>
    obtain ⟨b, d2⟩ := hd
    intro acc k a d junk hgood hnodup hfresh ha16 hsa hdup
    obtain ⟨hb16, hsize⟩ := hgood (b, d2) (by simp)
    have hsize2 : findDigestSize sizes b = some d2.length := hsize
    have hfr : dmLookup acc b = none := hfresh (b, d2) (by simp)
    rw [List.map_cons] at hnodup
    have hcons := List.nodup_cons.mp hnodup
    rw [show ((b, d2) :: tl).length + k + 1 = (tl.length + k + 1) + 1 from by
      simp [List.length_cons]; omega]
    rw [show encodeDigestEntries ((b, d2) :: tl) ++ (encU16 a ++ (d ++ junk)) =
      encU16 b ++ (d2 ++ (encodeDigestEntries tl ++ (encU16 a ++ (d ++ junk))))
      from by simp [encodeDigestEntries]]
    unfold readDigests
    rw [readU16_enc b hb16]
    dsimp only
    rw [hsize2]
    dsimp only
    rw [readFull_exact d2]
    rw [hfr]
    simp only [Option.isSome_none, Bool.false_eq_true, if_false]
    rw [List.append_cons] at hdup
    exact ih (acc ++ [(b, d2)]) k a d junk
      (fun p hp => hgood p (List.mem_cons_of_mem _ hp))
      hcons.2
      (fun p hp => by
        have hmem : p.1 ∈ List.map Prod.fst tl :=
          List.mem_map_of_mem Prod.fst hp
        rw [dmLookup_append_single, hfresh p (List.mem_cons_of_mem _ hp)]
        dsimp only
        rw [if_neg (fun (he : b = p.1) => hcons.1 (by rw [he]; exact hmem))])
      ha16 hsa hdup

/-- A digest-entry list is syntactically valid against an advertised list
when every id is advertised with digest length equal to the advertised size
(16-bit ids), with no repeated id. -/
def wellFormedEntries (sizes : List EFISpecIdEventAlgorithmSize)
    (entries : List (AlgorithmId × Digest)) : Prop :=
  (∀ p ∈ entries, p.1 < 65536 ∧
    findDigestSize sizes p.1 = some p.2.length) ∧
  (entries.map Prod.fst).Nodup

theorem dmLookup_isSome_of_mem (m : DigestMap) (a : AlgorithmId)
    (h : a ∈ m.map Prod.fst) : (dmLookup m a).isSome = true := by
  induction m with
  | nil => simp at h
  | cons kv rest ih =>
    obtain ⟨k, v⟩ := kv
    by_cases hk : k = a
    · simp [dmLookup, hk]
    · simp only [List.map_cons, List.mem_cons] at h
      rcases h with h | h
    
      · exact absurd h.symm hk
      · simp [dmLookup, hk, ih h]

/-- Claim C3: reading a non-first 2.0 event fails in exactly the three
digest-list cases — an unadvertised AlgorithmId yields the
unrecognised-algorithm error, a repeated AlgorithmId yields the
duplicate-digest error, and (after all digests are read) an advertised
algorithm with no digest yields the missing-digest error — while a
well-formed complete digest list passes the digest-list phase. -/
theorem digest_list_error_cases :
    (∀ (H : HashModel) (options : LogOptions)
       (sizes : List EFISpecIdEventAlgorithmSize) (pcr etype : Nat)
       (entries : List (AlgorithmId × Digest)) (k : Nat) (a : AlgorithmId)
       (junk : List Nat),
       pcr ≤ 31 → pcr < 4294967296 → etype < 4294967296 →
       entries.length + k + 1 < 4294967296 →
       wellFormedEntries sizes entries →
       a < 65536 → findDigestSize sizes a = none →
       readEvent2 H options sizes
         (encodeRecord2 pcr etype (entries.length + k + 1)
           (encodeDigestEntries entries ++ (encU16 a ++ junk))) =
         .err (.unrecognizedAlgorithm a)) ∧
    (∀ (H : HashModel) (options : LogOptions)
       (sizes : List EFISpecIdEventAlgorithmSize) (pcr etype : Nat)
       (entries : List (AlgorithmId × Digest)) (k : Nat) (a : AlgorithmId)
       (d : Digest) (junk : List Nat),
       pcr ≤ 31 → pcr < 4294967296 → etype < 4294967296 →
       entries.length + k + 1 < 4294967296 →
       wellFormedEntries sizes entries →
       a < 65536 → findDigestSize sizes a = some d.length →
       a ∈ entries.map Prod.fst →
       readEvent2 H options sizes
         (encodeRecord2 pcr etype (entries.length + k + 1)
           (encodeDigestEntries entries ++ (encU16 a ++ (d ++ junk)))) =
         .err (.duplicateDigest a)) ∧
    (∀ (H : HashModel) (options : LogOptions)
       (sizes : List EFISpecIdEventAlgorithmSize) (pcr etype : Nat)
       (entries : List (AlgorithmId × Digest)) (junk : List Nat)
       (aMiss : AlgorithmId),
       pcr ≤ 31 → pcr < 4294967296 → etype < 4294967296 →
       entries.length < 4294967296 →
       wellFormedEntries sizes entries →
       firstMissingAlg sizes entries = some aMiss →
       readEvent2 H options sizes
         (encodeRecord2 pcr etype entries.length
           (encodeDigestEntries entries ++ junk)) =
         .err (.missingDigest aMiss)) ∧
    (∀ (sizes : List EFISpecIdEventAlgorithmSize)
       (entries : List (AlgorithmId × Digest)) (rest : List Nat),
       wellFormedEntries sizes entries →
       readDigests sizes entries.length (encodeDigestEntries entries ++ rest)
         [] = .ok (entries, rest) ∧
       (firstMissingAlg sizes entries = none ↔
         ∀ p ∈ sizes, (dmLookup entries p.algorithmId).isSome)) := by
  refine ⟨?_, ?_, ?_, ?_⟩
  · intro H options sizes pcr etype entries k a junk hpcr hp32 he32 hc32 hwf
      ha16 hbad
    unfold readEvent2
    rw [show encodeRecord2 pcr etype (entries.length + k + 1)
        (encodeDigestEntries entries ++ (encU16 a ++ junk)) =
      encU32 pcr ++ (encU32 etype ++ (encU32 (entries.length + k + 1) ++
        (encodeDigestEntries entries ++ (encU16 a ++ junk)))) from by
        simp [encodeRecord2]]
    rw [readU32_enc pcr hp32]
    dsimp only
    rw [if_neg (by simp [isPCRIndexInRange, maxPCRIndex, hpcr])]
    rw [readU32_enc etype he32]
    dsimp only
    rw [readU32_enc _ hc32]
    dsimp only
    rw [readDigests_encoded_unrecognized sizes entries [] k a junk hwf.1 hwf.2
      (fun p _ => rfl) ha16 hbad]
  · intro H options sizes pcr etype entries k a d junk hpcr hp32 he32 hc32 hwf
      ha16 hsa hmem
    unfold readEvent2
    rw [show encodeRecord2 pcr etype (entries.length + k + 1)
        (encodeDigestEntries entries ++ (encU16 a ++ (d ++ junk))) =
      encU32 pcr ++ (encU32 etype ++ (encU32 (entries.length + k + 1) ++
        (encodeDigestEntries entries ++ (encU16 a ++ (d ++ junk))))) from by
        simp [encodeRecord2]]
    rw [readU32_enc pcr hp32]
    dsimp only
    rw [if_neg (by simp [isPCRIndexInRange, maxPCRIndex, hpcr])]
    rw [readU32_enc etype he32]
    dsimp only
    rw [readU32_enc _ hc32]
    dsimp only
    rw [readDigests_encoded_duplicate sizes entries [] k a d junk hwf.1 hwf.2
      (fun p _ => rfl) ha16 hsa
      (by rw [List.nil_append]; exact dmLookup_isSome_of_mem entries a hmem)]
  · intro H options sizes pcr etype entries junk aMiss hpcr hp32 he32 hc32 hwf
      hmiss
    unfold readEvent2
    rw [show encodeRecord2 pcr etype entries.length
        (encodeDigestEntries entries ++ junk) =
      encU32 pcr ++ (encU32 etype ++ (encU32 entries.length ++
        (encodeDigestEntries entries ++ junk))) from by simp [encodeRecord2]]
    rw [readU32_enc pcr hp32]
    dsimp only
    rw [if_neg (by simp [isPCRIndexInRange, maxPCRIndex, hpcr])]
    rw [readU32_enc etype he32]
    dsimp only
    rw [readU32_enc _ hc32]
    dsimp only
    rw [readDigests_encoded_ok sizes entries [] junk hwf.1 hwf.2
      (fun p _ => rfl)]
    dsimp only
    rw [List.nil_append, hmiss]
  · intro sizes entries rest hwf
    constructor
    · have h := readDigests_encoded_ok sizes entries [] rest hwf.1 hwf.2
        (fun p _ => rfl)
      rwa [List.nil_append] at h
    · exact firstMissingAlg_none_iff sizes entries

/-- Claim C3 (witness): concrete records triggering each digest-list error
and one passing the digest-list phase. -/
theorem digest_list_error_cases_witness :
    readEvent2 modelHash noOptions fixtureAlgSizes
      (encodeRecord2 0 4 2 (encodeDigestEntries [(11, [1, 1, 1, 1, 1])] ++
        (encU16 16 ++ []))) = .err (.unrecognizedAlgorithm 16) ∧
    readEvent2 modelHash noOptions fixtureAlgSizes
      (encodeRecord2 0 4 2 (encodeDigestEntries [(11, [1, 1, 1, 1, 1])] ++
        (encU16 11 ++ ([2, 2, 2, 2, 2] ++ [])))) =
      .err (.duplicateDigest 11) ∧
    readEvent2 modelHash noOptions fixtureAlgSizes
      (encodeRecord2 0 4 1 (encodeDigestEntries [(11, [1, 1, 1, 1, 1])] ++
        [])) = .err (.missingDigest 4) ∧
    readDigests fixtureAlgSizes 2
      (encodeDigestEntries [(11, [1, 1, 1, 1, 1]), (4, [3, 3, 3, 3, 3])] ++
        []) [] =
      .ok ([(11, [1, 1, 1, 1, 1]), (4, [3, 3, 3, 3, 3])], []) :=
  ⟨digest_list_error_cases.1 modelHash noOptions fixtureAlgSizes 0 4
      [(11, [1, 1, 1, 1, 1])] 0 16 [] (by decide) (by decide) (by decide)
      (by decide) ⟨by decide, by decide⟩ (by decide) (by decide),
   digest_list_error_cases.2.1 modelHash noOptions fixtureAlgSizes 0 4
      [(11, [1, 1, 1, 1, 1])] 0 11 [2, 2, 2, 2, 2] [] (by decide) (by decide)
      (by decide) (by decide) ⟨by decide, by decide⟩ (by decide) (by decide)
      (by decide),
   digest_list_error_cases.2.2.1 modelHash noOptions fixtureAlgSizes 0 4
      [(11, [1, 1, 1, 1, 1])] [] 4 (by decide) (by decide) (by decide)
      (by decide) ⟨by decide, by decide⟩ (by decide),
   (digest_list_error_cases.2.2.2 fixtureAlgSizes
      [(11, [1, 1, 1, 1, 1]), (4, [3, 3, 3, 3, 3])] []
      ⟨by decide, by decide⟩).1⟩

/-! Claim C5. -/

/-- Claim C5: open reads exactly one event with a 1.2 reader over the input
recorded at the starting offset; if its decoded data is a SpecIdEvent with
Spec == EFI 2 the returned Log is armed with a 2.0 reader positioned back at
the start (the rewind) and its Algorithms are the advertised list filtered to
the supported set, otherwise the Log keeps a 1.2 reader at the start and its
Algorithms are exactly [SHA-1]. -/
theorem open_reads_one_event_and_rewinds (H : HashModel)
    (options : LogOptions) (input : List Nat) (log : Log)
    (h : newLogFromReader H input options = .ok log) :
    ∃ e t rest, readStream H (.s12 options input) = .ok e t rest ∧
      ((∃ d, e.data = .specId d ∧ d.spec = .efi_2 ∧
         log.spec = .efi_2 ∧
         log.stream = .s2 options d.digestSizes false input ∧
         log.algorithms = d.digestSizes.filterMap (fun a =>
           if isKnownAlgorithm a.algorithmId then some a.algorithmId
           else none)) ∨
       ((∀ d, e.data = .specId d → d.spec ≠ .efi_2) ∧
         log.stream = .s12 options input ∧
         log.algorithms = [AlgorithmSha1])) := by
  cases hrs : readStream H (.s12 options input) with
  | err e2 =>
    unfold newLogFromReader at h
    rw [hrs] at h
    dsimp only at h
    exact OpenOutcome.noConfusion h
  | panicked =>
    unfold newLogFromReader at h
    rw [hrs] at h
    dsimp only at h
    exact OpenOutcome.noConfusion h
  | ok event t rest =>
    refine ⟨event, t, rest, rfl, ?_⟩
    unfold newLogFromReader at h
    rw [hrs] at h
    dsimp only at h
    cases hd : event.data
    case specId d =>
      rw [hd] at h
      dsimp only at h
      rw [if_neg (by decide)] at h
      by_cases hspec : d.spec = Spec.efi_2
      · rw [if_pos hspec] at h
        simp only [OpenOutcome.ok.injEq] at h
        subst h
        exact Or.inl ⟨d, rfl, hspec, hspec ▸ rfl, rfl, rfl⟩
      · rw [if_neg hspec] at h
        simp only [OpenOutcome.ok.injEq] at h
        subst h
        refine Or.inr ⟨?_, rfl, rfl⟩
        intro d2 hd2
        injection hd2 with hdd
        rw [← hdd]
        exact hspec
    case broken data er =>
      rw [hd] at h
      dsimp only at h
      by_cases he : er = DataErr.invalidSpecIdEvent
      · rw [if_pos (by simp [he])] at h
        exact OpenOutcome.noConfusion h
      · rw [if_neg (by simp [he])] at h
        rw [if_neg (by decide)] at h
        simp only [OpenOutcome.ok.injEq] at h
        subst h
        refine Or.inr ⟨?_, rfl, rfl⟩
        intro d2 hd2
        exact EventData.noConfusion hd2
    all_goals
      rw [hd] at h
      dsimp only at h
      rw [if_neg (by decide), if_neg (by decide)] at h
      simp only [OpenOutcome.ok.injEq] at h
      subst h
      refine Or.inr ⟨?_, rfl, rfl⟩
      intro d2 hd2
      exact EventData.noConfusion hd2

/-- An EFI 2 Spec ID Event 03 payload advertising SHA-256 (size 32) and
SHA-1 (size 20). -/
def specIdPayload : List Nat :=
  sigSpecIdEvent03 ++ [0, 0, 0, 0] ++ [0, 2, 0, 2] ++ [2, 0, 0, 0] ++
    ([11, 0] ++ [32, 0]) ++ ([4, 0] ++ [20, 0]) ++ [0]

def specIdRecord : List Nat :=
  [0, 0, 0, 0] ++ [3, 0, 0, 0] ++ List.replicate 20 7 ++ [37, 0, 0, 0] ++
    specIdPayload

def efi2OpenLog : Log :=
  ⟨.efi_2, [11, 4], .s2 noOptions [⟨11, 32⟩, ⟨4, 20⟩] false specIdRecord,
   false, []⟩

/-- Claim C5 (witness): opening a log starting with that Spec ID record
yields the 2.0-armed log rewound to the start. -/
theorem open_reads_one_event_and_rewinds_witness :
    ∃ e t rest,
      readStream modelHash (.s12 noOptions specIdRecord) = .ok e t rest ∧
      ((∃ d, e.data = .specId d ∧ d.spec = .efi_2 ∧
         efi2OpenLog.spec = .efi_2 ∧
         efi2OpenLog.stream = .s2 noOptions d.digestSizes false specIdRecord ∧
         efi2OpenLog.algorithms = d.digestSizes.filterMap (fun a =>
           if isKnownAlgorithm a.algorithmId then some a.algorithmId
           else none)) ∨
       ((∀ d, e.data = .specId d → d.spec ≠ .efi_2) ∧
         efi2OpenLog.stream = .s12 noOptions specIdRecord ∧
         efi2OpenLog.algorithms = [AlgorithmSha1])) :=
  open_reads_one_event_and_rewinds modelHash noOptions specIdRecord
    efi2OpenLog (by decide)


/-! Claim C7. -/

theorem backfillDigests_keeps (algs : List AlgorithmId) :
    ∀ (m : DigestMap) (x : AlgorithmId) (v : Digest),
      dmLookup m x = some v →
      dmLookup (backfillDigests m algs) x = some v := by
  induction algs with
  | nil => intro m x v h; simpa [backfillDigests] using h
  | cons a rest ih =>
    intro m x v h
    unfold backfillDigests
    by_cases ha1 : a = AlgorithmSha1
    · rw [if_pos ha1]
      exact ih m x v h
    · rw [if_neg ha1]
      by_cases hpres : (dmLookup m a).isSome
      · rw [if_pos hpres]
        exact ih m x v h
      · rw [if_neg hpres]
        refine ih _ x v ?_
        rw [dmLookup_append_single, h]

theorem backfillDigests_fills (algs : List AlgorithmId) :
    ∀ (m : DigestMap) (x : AlgorithmId),
      dmLookup m x = none → x ∈ algs → x ≠ AlgorithmSha1 →
      dmLookup (backfillDigests m algs) x = some (zeroDigests x) := by
  induction algs with
  | nil => intro m x _ hx _; simp at hx
  | cons a rest ih =>
    intro m x h hx hx1
    unfold backfillDigests
    by_cases ha1 : a = AlgorithmSha1
    · rw [if_pos ha1]
      have hxr : x ∈ rest := by
        rcases List.mem_cons.mp hx with hxa | hxr
        · exact absurd (hxa.trans ha1) hx1
        · exact hxr
      exact ih m x h hxr hx1
    · rw [if_neg ha1]
      by_cases hpres : (dmLookup m a).isSome
      · rw [if_pos hpres]
        have hxr : x ∈ rest := by
          rcases List.mem_cons.mp hx with hxa | hxr
          · rw [hxa] at h
            rw [h] at hpres
            simp at hpres
          · exact hxr
        exact ih m x h hxr hx1
      · rw [if_neg hpres]
        by_cases hxa : x = a
        · subst hxa
          refine backfillDigests_keeps rest _ x (zeroDigests x) ?_
          rw [dmLookup_append_single, h]
          simp
        · have hxr : x ∈ rest := by
            rcases List.mem_cons.mp hx with hxa2 | hxr
            · exact absurd hxa2 hxa
            · exact hxr
          refine ih _ x ?_ hxr hx1
          rw [dmLookup_append_single, h]
          dsimp only
          rw [if_neg (fun (he : a = x) => hxa he.symm)]

theorem backfillDigests_none (algs : List AlgorithmId) :
    ∀ (m : DigestMap) (x : AlgorithmId),
      dmLookup m x = none → x ∉ algs →
      dmLookup (backfillDigests m algs) x = none := by
  induction algs with
  | nil => intro m x h _; simpa [backfillDigests] using h
  | cons a rest ih =>
    intro m x h hx
    have hxa : x ≠ a := fun he => hx (he ▸ List.mem_cons_self a rest)
    have hxr : x ∉ rest := fun he => hx (List.mem_cons_of_mem a he)
    unfold backfillDigests
    by_cases ha1 : a = AlgorithmSha1
    · rw [if_pos ha1]
      exact ih m x h hxr
    · rw [if_neg ha1]
      by_cases hpres : (dmLookup m a).isSome
      · rw [if_pos hpres]
        exact ih m x h hxr
      · rw [if_neg hpres]
        refine ih _ x ?_ hxr
        rw [dmLookup_append_single, h]
        dsimp only
        rw [if_neg (fun (he : a = x) => hxa he.symm)]

theorem isSpecIdEvent_true (e : Event) (sd : SpecIdEventData)
    (h : e.data = .specId sd) : isSpecIdEvent e = true := by
  simp [isSpecIdEvent, h]

theorem fixupSpecIdEvent_efi2 (e : Event) (sd : SpecIdEventData)
    (algs : List AlgorithmId) (h : e.data = .specId sd)
    (hs : sd.spec = .efi_2) :
    fixupSpecIdEvent e algs =
      { e with digests := backfillDigests e.digests algs } := by
  simp only [fixupSpecIdEvent, h]
  rw [if_neg (by simp [hs])]

/-- Claim C7: when next_event returns an event whose decoded data is an
EFI 2 SpecIdEvent (a first event read by the 1.2 reader, so its map is the
single SHA-1 entry as read), every other algorithm in the log's advertised
list is back-filled with the canonical zero digest, SHA-1 keeps the digest
read from the stream, and no unadvertised algorithm is added. -/
theorem spec_id_backfill (H : HashModel) (l : Log) (e0 : Event) (t : Nat)
    (st : StreamState) (sd : SpecIdEventData) (d : Digest)
    (hf : l.failed = false)
    (hr : readStream H l.stream = .ok e0 t st)
    (hd : e0.data = .specId sd) (hspec : sd.spec = .efi_2)
    (hdig : e0.digests = [(AlgorithmSha1, d)]) :
    ∃ e l2, nextEventInternal H l = (.ok e t, l2) ∧
      dmLookup e.digests AlgorithmSha1 = some d ∧
      (∀ alg ∈ l.algorithms, alg ≠ AlgorithmSha1 →
        dmLookup e.digests alg = some (zeroDigests alg)) ∧
      (∀ alg, alg ∉ l.algorithms → alg ≠ AlgorithmSha1 →
        dmLookup e.digests alg = none) := by
  unfold nextEventInternal
  rw [hf]
  simp only [Bool.false_eq_true, if_false]
  rw [hr]
  dsimp only
  cases htr : trackerLookup l.indexTracker e0.pcrIndex with
  | none =>
    dsimp only
    rw [if_pos (isSpecIdEvent_true _ sd
      (show ({ e0 with index := 0 } : Event).data = .specId sd from hd))]
    rw [fixupSpecIdEvent_efi2 _ sd l.algorithms
      (show ({ e0 with index := 0 } : Event).data = .specId sd from hd) hspec]
    refine ⟨_, _, rfl, ?_, ?_, ?_⟩
    · refine backfillDigests_keeps l.algorithms _ AlgorithmSha1 d ?_
      show dmLookup e0.digests AlgorithmSha1 = some d
      rw [hdig]
      simp [dmLookup]
    · intro alg halg hne
      refine backfillDigests_fills l.algorithms _ alg ?_ halg hne
      show dmLookup e0.digests alg = none
      rw [hdig]
      simp [dmLookup]
      exact fun he => hne he.symm
    · intro alg halg hne
      refine backfillDigests_none l.algorithms _ alg ?_ halg
      show dmLookup e0.digests alg = none
      rw [hdig]
      simp [dmLookup]
      exact fun he => hne he.symm
  | some i =>
    dsimp only
    rw [if_pos (isSpecIdEvent_true _ sd
      (show ({ e0 with index := i } : Event).data = .specId sd from hd))]
    rw [fixupSpecIdEvent_efi2 _ sd l.algorithms
      (show ({ e0 with index := i } : Event).data = .specId sd from hd) hspec]
    refine ⟨_, _, rfl, ?_, ?_, ?_⟩
    · refine backfillDigests_keeps l.algorithms _ AlgorithmSha1 d ?_
      show dmLookup e0.digests AlgorithmSha1 = some d
      rw [hdig]
      simp [dmLookup]
    · intro alg halg hne
      refine backfillDigests_fills l.algorithms _ alg ?_ halg hne
      show dmLookup e0.digests alg = none
      rw [hdig]
      simp [dmLookup]
      exact fun he => hne he.symm
    · intro alg halg hne
      refine backfillDigests_none l.algorithms _ alg ?_ halg
      show dmLookup e0.digests alg = none
      rw [hdig]
      simp [dmLookup]
      exact fun he => hne he.symm

def backfillSpecData : SpecIdEventData :=
  ⟨.efi_2, 0, 0, 2, 0, 2, [⟨11, 32⟩, ⟨4, 20⟩], []⟩

def backfillEvent : Event :=
  ⟨0, 3, [(4, List.replicate 20 7)], .specId backfillSpecData, 0⟩

def backfillLog : Log :=
  ⟨.efi_2, [11, 4], .s12 noOptions specIdRecord, false, []⟩

/-- Claim C7 (witness): reading the concrete EFI 2 Spec ID record through a
log advertising SHA-256 and SHA-1 back-fills SHA-256 with the zero digest. -/
theorem spec_id_backfill_witness :
    ∃ e l2, nextEventInternal modelHash backfillLog = (.ok e 0, l2) ∧
      dmLookup e.digests AlgorithmSha1 = some (List.replicate 20 7) ∧
      (∀ alg ∈ backfillLog.algorithms, alg ≠ AlgorithmSha1 →
        dmLookup e.digests alg = some (zeroDigests alg)) ∧
      (∀ alg, alg ∉ backfillLog.algorithms → alg ≠ AlgorithmSha1 →
        dmLookup e.digests alg = none) :=
  spec_id_backfill modelHash backfillLog backfillEvent 0
    (.s12 noOptions []) backfillSpecData (List.replicate 20 7) rfl
    (by decide) rfl rfl rfl


/-! Claim C2. -/

theorem bankFind_set (bank : List ((PCRIndex × AlgorithmId) × Digest))
    (k : PCRIndex × AlgorithmId) (v : Digest) (p : PCRIndex)
    (a : AlgorithmId) :
    bankFind (bankSet bank k v) p a =
      if k = (p, a) then some v else bankFind bank p a := by
  induction bank with
  | nil => simp [bankSet, bankFind]
  | cons kv2 rest ih =>
    obtain ⟨k2, v2⟩ := kv2
    simp only [bankSet]
    by_cases h2 : k2 = k
    · subst h2
      simp only [bankFind]
      by_cases h : k2 = (p, a) <;> simp [h]
    · rw [if_neg h2]
      simp only [bankFind]
      by_cases h : k2 = (p, a)
      · rw [if_pos h, if_pos h, if_neg (fun he => h2 (he.trans h.symm).symm)]
      · rw [if_neg h, if_neg h, ih]

theorem processEventAlg_bankGet_other (H : HashModel) (e : Event)
    (st : ValidatorState) (b : AlgorithmId) (p : PCRIndex) (a : AlgorithmId)
    (h : (e.pcrIndex, b) ≠ (p, a)) :
    bankGet (processEventAlg H e st b).bank p a = bankGet st.bank p a := by
  unfold processEventAlg bankGet
  dsimp only
  rw [bankFind_set, if_neg h]

theorem processEventAlg_bankGet_self (H : HashModel) (e : Event)
    (st : ValidatorState) (a : AlgorithmId) :
    bankGet (processEventAlg H e st a).bank e.pcrIndex a =
      (hashSum H (bankGet st.bank e.pcrIndex a ++ dmLookupD e.digests a)
        a).getD [] := by
  unfold processEventAlg bankGet
  dsimp only
  rw [bankFind_set, if_pos rfl]
  simp

theorem foldAlgs_bankGet_notmem (H : HashModel) (e : Event)
    (algs : List AlgorithmId) :
    ∀ (st : ValidatorState) (p : PCRIndex) (a : AlgorithmId), a ∉ algs →
      bankGet ((algs.foldl (processEventAlg H e) st)).bank p a =
        bankGet st.bank p a := by
  induction algs with
  | nil => intro st p a _; rfl
  | cons b rest ih =>
    intro st p a ha
    rw [List.foldl_cons]
    rw [ih _ p a (fun hr => ha (List.mem_cons_of_mem b hr))]
    exact processEventAlg_bankGet_other H e st b p a
      (fun he => ha (by injection he with h1 h2; rw [h2]; exact
        List.mem_cons_self a rest))

theorem foldAlgs_bankGet_other_pcr (H : HashModel) (e : Event)
    (algs : List AlgorithmId) :
    ∀ (st : ValidatorState) (p : PCRIndex) (a : AlgorithmId),
      p ≠ e.pcrIndex →
      bankGet ((algs.foldl (processEventAlg H e) st)).bank p a =
        bankGet st.bank p a := by
  induction algs with
  | nil => intro st p a _; rfl
  | cons b rest ih =>
    intro st p a hp
    rw [List.foldl_cons, ih _ p a hp]
    exact processEventAlg_bankGet_other H e st b p a
      (fun he => hp (by injection he with h1 h2; rw [h1]))

theorem foldAlgs_bankGet_mem (H : HashModel) (e : Event)
    (algs : List AlgorithmId) :
    ∀ (st : ValidatorState) (a : AlgorithmId), a ∈ algs → algs.Nodup →
      bankGet ((algs.foldl (processEventAlg H e) st)).bank e.pcrIndex a =
        (hashSum H (bankGet st.bank e.pcrIndex a ++ dmLookupD e.digests a)
          a).getD [] := by
  induction algs with
  | nil => intro st a ha _; simp at ha
  | cons b rest ih =>
    intro st a ha hnd
    have hc := List.nodup_cons.mp hnd
    rw [List.foldl_cons]
    by_cases hab : a = b
    · subst hab
      rw [foldAlgs_bankGet_notmem H e rest _ e.pcrIndex a hc.1]
      exact processEventAlg_bankGet_self H e st a
    · have har : a ∈ rest := by
        rcases List.mem_cons.mp ha with h | h
        · exact absurd h hab
        · exact h
      rw [ih _ a har hc.2]
      rw [processEventAlg_bankGet_other H e st b e.pcrIndex a
        (fun he => hab (by injection he with h1 h2; rw [h2]))]

theorem validateEvents_bankGet (H : HashModel) (pcrs : List PCRIndex)
    (algs : List AlgorithmId) (p : PCRIndex) (a : AlgorithmId)
    (hp : p ∈ pcrs) (ha : a ∈ algs) (hnd : algs.Nodup)
    (events : List Event) :
    ∀ (st : ValidatorState),
      bankGet ((events.foldl (processEvent H pcrs algs) st)).bank p a =
        (events.filter (fun e => e.pcrIndex = p)).foldl
          (fun acc e => (hashSum H (acc ++ dmLookupD e.digests a) a).getD [])
          (bankGet st.bank p a) := by
  induction events with
  | nil => intro st; simp
  | cons e rest ih =>
    intro st
    rw [List.foldl_cons]
    by_cases hpe : e.pcrIndex = p
    · have hmem : e.pcrIndex ∈ pcrs := hpe ▸ hp
      rw [show processEvent H pcrs algs st e =
        algs.foldl (processEventAlg H e) st from by
          simp [processEvent, hmem]]
      rw [ih (algs.foldl (processEventAlg H e) st)]
      rw [show List.filter (fun e2 => decide (e2.pcrIndex = p)) (e :: rest) =
        e :: List.filter (fun e2 => decide (e2.pcrIndex = p)) rest from by
          simp [hpe]]
      rw [List.foldl_cons]
      rw [← hpe]
      rw [foldAlgs_bankGet_mem H e algs st a ha hnd]
    · rw [show List.filter (fun e2 => decide (e2.pcrIndex = p)) (e :: rest) =
        List.filter (fun e2 => decide (e2.pcrIndex = p)) rest from by
          simp [hpe]]
      by_cases hmem : e.pcrIndex ∈ pcrs
      · rw [show processEvent H pcrs algs st e =
          algs.foldl (processEventAlg H e) st from by
            simp [processEvent, hmem]]
        rw [ih (algs.foldl (processEventAlg H e) st)]
        rw [foldAlgs_bankGet_other_pcr H e algs st p a
          (fun he => hpe he.symm)]
      · rw [show processEvent H pcrs algs st e = st from by
          simp [processEvent, hmem]]
        exact ih st

/-- Claim C2: the replayed PCR bank for a selected (p, alg) equals the left
fold, over the events with PCRIndex = p in emission order, starting from the
all-zero digest, of extending with the event's RECORDED digest — never the
recomputed expected one (the fold consumes only `e.digests`). -/
theorem validator_replay_fold (H : HashModel) (pcrs : List PCRIndex)
    (algs : List AlgorithmId) (events : List Event) (p : PCRIndex)
    (a : AlgorithmId) (hp : p ∈ pcrs) (ha : a ∈ algs) (hnd : algs.Nodup)
    (hk : isKnownAlgorithm a = true) :
    replayedBank H pcrs algs events p a =
      (events.filter (fun e => e.pcrIndex = p)).foldl
        (fun acc e => (hashSum H (acc ++ dmLookupD e.digests a) a).getD [])
        (zeroDigests a) := by
  unfold replayedBank validateEvents
  rw [validateEvents_bankGet H pcrs algs p a hp ha hnd events ⟨[], []⟩]
  rfl

def replayEvents : List Event :=
  [⟨0, 4, [(4, [1, 2])], .opaqueEventData [], 0⟩,
   ⟨0, 4, [(4, [3])], .opaqueEventData [], 0⟩,
   ⟨1, 4, [(4, [9])], .opaqueEventData [], 0⟩]

/-- Claim C2 (witness): three concrete events over PCRs 0 and 1; the bank
for (0, SHA-1) equals the two-event fold, evaluated. -/
theorem validator_replay_fold_witness :
    replayedBank modelHash [0, 1] [4] replayEvents 0 4 =
      (replayEvents.filter (fun e => e.pcrIndex = 0)).foldl
        (fun acc e =>
          (hashSum modelHash (acc ++ dmLookupD e.digests 4) 4).getD [])
        (zeroDigests 4) ∧
    replayedBank modelHash [0, 1] [4] replayEvents 0 4 =
      4 :: ((4 :: (List.replicate 20 0 ++ [1, 2])) ++ [3]) :=
  ⟨validator_replay_fold modelHash [0, 1] [4] replayEvents 0 4 (by decide)
      (by decide) (by decide) (by decide),
   by decide⟩

end TCGLog
